import Mathlib

/-!
# Byte editor: codec, byte store and view state machine

A shallow embedding of `converter_engine.hpp`, `buffer_manager.hpp`,
`display_engine.hpp` and the edit commands of `main.cpp`.

Conventions of the embedding
* a `uint8_t` is a `Nat`; a conversion to `uint8_t` is `% 256`;
* a `std::string` is a `String`, one `Char` per C++ `char`;
* a `size_t` is a `Nat`; unsigned arithmetic that may wrap is reduced
  modulo `2 ^ 64`, a conversion to `long long` is two's complement;
* an `int` or `long long` is an `Int`;
* `std::pair<bool, uint8_t>` is `Bool × Nat`;
* a call that can throw or leave defined behaviour returns `Except`.
-/

namespace ConverterEngine

/-! ## Library behaviour used by the converter -/

/-- Digit characters used by the stream inserter for an integer, lowest first
in the table; `std::uppercase` selects the capital letters. -/
def upperDigit (d : Nat) : Char :=
  "0123456789ABCDEF".toList.getD d '0'

/-- The digits of `n` in base 16, most significant first, as the stream
inserter produces them under `std::hex << std::uppercase`.  The first argument
bounds the number of digits. -/
def hexDigitsAux : Nat → Nat → List Char → List Char
  | 0, _, acc => acc
  | fuel + 1, n, acc =>
    let acc1 := upperDigit (n % 16) :: acc
    if n / 16 = 0 then acc1 else hexDigitsAux fuel (n / 16) acc1

/-- Text of a non-negative `int` under `std::hex << std::uppercase`. -/
def hexDigits (n : Nat) : List Char :=
  hexDigitsAux (n + 1) n []

/-- Effect of `std::setw(w) << std::setfill(fill)` on one inserted field:
shorter text is padded on the left, longer text is left alone. -/
def padLeft (w : Nat) (fill : Char) (cs : List Char) : List Char :=
  List.replicate (w - cs.length) fill ++ cs

/-- Value held by `std::bitset<8>(v)`: bit `i` of `v` for `i < 8`, listed from
bit 0 upwards. -/
def bitsetOfNat (v : Nat) : List Bool :=
  (List.range 8).map (fun i => v.testBit i)

/-- Result of `std::bitset<8>::to_string()`: position `k` of the text shows bit
`7 - k`. -/
def bitsetToString (bits : List Bool) : List Char :=
  (List.range 8).map (fun k => if bits.getD (7 - k) false then '1' else '0')

/-- Constructor `std::bitset<8>(const std::string&)`.  Every character of the
text has to be `'0'` or `'1'`, otherwise `std::invalid_argument` is thrown
(`none`).  With `m = min 8 length`, bit `i < m` is taken from position
`m - 1 - i`; higher bits are clear. -/
def bitsetOfString (cs : List Char) : Option (List Bool) :=
  if cs.all (fun c => c == '0' || c == '1') then
    let m := min 8 cs.length
    some ((List.range 8).map (fun i => decide (i < m) && (cs.getD (m - 1 - i) '0' == '1')))
  else
    none

/-- Result of `std::bitset<8>::to_ulong()`: the sum of `2 ^ i` over the set
bits, bit 0 first in the list. -/
def bitsetToUlong : List Bool → Nat
  | [] => 0
  | b :: rest => (if b then 1 else 0) + 2 * bitsetToUlong rest

/-- White space skipped by a formatted stream extraction (classic locale). -/
def isSpace (c : Char) : Bool :=
  c == ' ' || c == '\t' || c == '\n' || c == '\x0b' || c == '\x0c' || c == '\r'

/-- Value of a hexadecimal digit character, in either case. -/
def hexDigitValue (c : Char) : Option Nat :=
  if '0' ≤ c ∧ c ≤ '9' then some (c.toNat - '0'.toNat)
  else if 'a' ≤ c ∧ c ≤ 'f' then some (c.toNat - 'a'.toNat + 10)
  else if 'A' ≤ c ∧ c ≤ 'F' then some (c.toNat - 'A'.toNat + 10)
  else none

/-- Recognises a hexadecimal digit character. -/
def isHexDigit (c : Char) : Bool :=
  (hexDigitValue c).isSome

/-- Accumulates digit values, most significant first. -/
def accumulateHex (cs : List Char) : Nat :=
  cs.foldl (fun acc c => 16 * acc + (hexDigitValue c).getD 0) 0

/-- Removes an optional sign; the flag tells whether it was `'-'`. -/
def takeSign : List Char → Bool × List Char
  | [] => (false, [])
  | c :: rest =>
    if c = '-' then (true, rest)
    else if c = '+' then (false, rest)
    else (false, c :: rest)

/-- Removes one leading `'0'`, and with it a following `'x'` or `'X'`.  The
flag tells whether a zero was read that still counts as a digit. -/
def takeZeroPrefix : List Char → Bool × List Char
  | [] => (false, [])
  | c :: rest =>
    if c = '0' then
      match rest with
      | [] => (true, [])
      | d :: rest2 =>
        if d = 'x' ∨ d = 'X' then (false, rest2) else (true, d :: rest2)
    else (false, c :: rest)

/-- Formatted extraction `stream >> x` of an `unsigned int` under `std::hex`
from a stream holding `input`: leading white space is skipped, a sign and a
`0x` prefix are accepted, then the longest run of hexadecimal digits is read.
The extraction fails (`none`) when no digit was read or when the digits exceed
`UINT_MAX`; a minus sign negates modulo `2 ^ 32`. -/
def extractHexUnsigned (input : List Char) : Option Nat :=
  let afterSpace := input.dropWhile isSpace
  let signed := takeSign afterSpace
  let prefixed := takeZeroPrefix signed.2
  let digits := prefixed.2.takeWhile isHexDigit
  if digits.isEmpty && !prefixed.1 then none
  else
    let v := accumulateHex digits
    if v > 4294967295 then none
    else if signed.1 then some ((4294967296 - v) % 4294967296)
    else some v

/-! ## `converter_engine.hpp` -/

/-- Keeps an ASCII byte, replaces any other by `'.'`. -/
def convertNonAscii (byte : Nat) : Nat :=
  if byte > 127 then '.'.toNat % 256 else byte

/-- Two-character hexadecimal text of the converted byte. -/
def byteToHex (byte : Nat) : String :=
  String.mk (padLeft 2 '0' (hexDigits (convertNonAscii byte)))

/-- Eight-character binary text of the converted byte. -/
def byteToBin (byte : Nat) : String :=
  String.mk (bitsetToString (bitsetOfNat (convertNonAscii byte)))

/-- Character of the converted byte. -/
def byteToChar (byte : Nat) : Char :=
  Char.ofNat (convertNonAscii byte)

/-- Parses hexadecimal text; the parsed `unsigned int` is cut to 8 bits. -/
def hexToByte (hex : String) : Bool × Nat :=
  match extractHexUnsigned hex.data with
  | none => (false, 0)
  | some x => (true, x % 256)

/-- Parses binary text of exactly eight characters; an exception of the
`bitset` constructor is caught and reported as failure. -/
def binToByte (bin : String) : Bool × Nat :=
  if bin.length ≠ 8 then (false, 0)
  else
    match bitsetOfString bin.data with
    | none => (false, 0)
    | some bits => (true, bitsetToUlong bits % 256)

/-- Byte value of a character. -/
def charToByte (c : Char) : Nat :=
  c.toNat % 256

end ConverterEngine

/-! ## Machine integers -/

/-- Reduction of an unsigned 64-bit (`size_t`) result. -/
def wrapSizeT (x : Nat) : Nat :=
  x % 18446744073709551616

/-! ## `buffer_manager.hpp` -/

/-- The byte store: the bytes of the file, its name and the dirty flag. -/
structure BufferManager where
  buffer : List Nat
  filename : String
  modified : Bool

/-- Ways in which a call on the byte store does not return: `resize` threw
`std::length_error`, or a byte was written outside the vector (undefined
behaviour), the vector then holding `resized`. -/
inductive StoreError
  | lengthError
  | outOfBounds (resized : List Nat)

namespace BufferManager

/-- Default constructor: no bytes, no file name, not modified. -/
def create : BufferManager :=
  { buffer := [], filename := "", modified := false }

/-- Byte at `offset`, or 0 outside the buffer. -/
def getByte (b : BufferManager) (offset : Nat) : Nat :=
  if offset < b.buffer.length then b.buffer.getD offset 0 else 0

/-- Largest size of a `std::vector<uint8_t>` (`max_size()`, which is
`PTRDIFF_MAX`). -/
def maxSize : Nat := 9223372036854775807

/-- Call `std::vector::resize(newSize)`: above `max_size()` it throws
`std::length_error` and changes nothing; otherwise the vector is cut to
`newSize` elements or extended with zero bytes.  Memory is taken to be
available. -/
def resize (l : List Nat) (newSize : Nat) : Except StoreError (List Nat) :=
  if newSize > maxSize then Except.error StoreError.lengthError
  else Except.ok (l.take newSize ++ List.replicate (newSize - l.length) 0)

/-- Stores `value` at `offset` (a `size_t`).  When `offset` is outside the
buffer, the buffer is first resized to `offset + 1`, a `size_t` sum that wraps
to 0 at `offset = 2 ^ 64 - 1`; an exception of `resize` leaves the call.  The
write `buffer[offset] = value` is defined only inside the resized buffer; after
the wrap it is not, which is reported with the buffer as it then is. -/
def setByte (b : BufferManager) (offset value : Nat) : Except StoreError BufferManager :=
  if offset ≥ b.buffer.length then
    match resize b.buffer (wrapSizeT (offset + 1)) with
    | Except.error e => Except.error e
    | Except.ok grown =>
      if offset < grown.length then
        Except.ok { b with buffer := grown.set offset value, modified := true }
      else Except.error (StoreError.outOfBounds grown)
  else
    Except.ok { b with buffer := b.buffer.set offset value, modified := true }

/-- Number of bytes held. -/
def getSize (b : BufferManager) : Nat :=
  b.buffer.length

/-- Dirty flag. -/
def isModified (b : BufferManager) : Bool :=
  b.modified

/-- Name of the associated file. -/
def getFilename (b : BufferManager) : String :=
  b.filename

end BufferManager

/-! ## `display_engine.hpp` -/

/-- Representation shown and edited. -/
inductive EditMode
  | HEX
  | BIN
  | CHAR
  deriving DecidableEq, Repr

/-- Difference `a - b` of two `size_t` values. -/
def subSizeT (a b : Nat) : Nat :=
  wrapSizeT (a + 18446744073709551616 - wrapSizeT b)

/-- Conversion `static_cast<long long>` of a `size_t` value (two's
complement). -/
def toLongLong (x : Nat) : Int :=
  if wrapSizeT x < 9223372036854775808 then (wrapSizeT x : Int)
  else (wrapSizeT x : Int) - 18446744073709551616

/-- The view state: cursor, first byte of the window, and mode. -/
structure DisplayEngine where
  cursorOffset : Nat
  windowStart : Nat
  currentMode : EditMode
  deriving DecidableEq, Repr

namespace DisplayEngine

/-- Bytes per row of the grid (`const int hexBinBytesPerRow = 16`). -/
def hexBinBytesPerRow : Nat := 16

/-- Rows of the grid (`const int visibleRows = 20`). -/
def visibleRows : Nat := 20

/-- Constructor: cursor 0, window 0, hexadecimal mode. -/
def create : DisplayEngine :=
  { cursorOffset := 0, windowStart := 0, currentMode := EditMode.HEX }

/-- Sets the mode and re-aligns the window: to the row of the cursor in the
grid modes, to 0 in character mode.  The row start never exceeds the cursor, so
it needs no reduction. -/
def setMode (s : DisplayEngine) (mode : EditMode) : DisplayEngine :=
  if mode ≠ EditMode.CHAR then
    { s with currentMode := mode,
             windowStart := (s.cursorOffset / hexBinBytesPerRow) * hexBinBytesPerRow }
  else
    { s with currentMode := mode, windowStart := 0 }

/-- Row width. -/
def getBytesPerRow (_s : DisplayEngine) : Nat :=
  hexBinBytesPerRow

/-- The loop `for (i = cursorOffset; i < bufferSize; ++i)` of the move "down"
in character mode, started at `i`: at the first line feed it assigns `i + 1`
when that is inside the buffer, and stops.  The result is the assigned cursor,
`none` when nothing is assigned.  The first argument bounds the number of
iterations; `bufferSize - i` is always enough. -/
def scanDown (buffer : BufferManager) (bufferSize : Nat) : Nat → Nat → Option Nat
  | 0, _ => none
  | fuel + 1, i =>
    if i < bufferSize then
      if buffer.getByte i = 0x0A then
        if i + 1 < bufferSize then some (i + 1) else none
      else scanDown buffer bufferSize fuel (i + 1)
    else none

/-- The loop `while (search > 0 && getByte(search) != '\n') search--` of the
move "up" in character mode; the result is the final `search`. -/
def scanUp (buffer : BufferManager) : Nat → Nat
  | 0 => 0
  | search + 1 =>
    if buffer.getByte (search + 1) ≠ 0x0A then scanUp buffer search else search + 1

/-- Moves the cursor by `delta` (an `int`) and scrolls the window.  The new
offset is formed in `long long` from the converted cursor; the window
arithmetic is `size_t` arithmetic.  A conversion of a non-negative
`long long` back to `size_t` keeps the value. -/
def moveCursor (s : DisplayEngine) (delta : Int) (buffer : BufferManager) : DisplayEngine :=
  let bufferSize := buffer.getSize
  if s.currentMode = EditMode.CHAR then
    if delta = 1 ∨ delta = -1 then
      let newOffset := toLongLong s.cursorOffset + delta
      if 0 ≤ newOffset ∧ newOffset < toLongLong bufferSize then
        { s with cursorOffset := newOffset.toNat }
      else s
    else if delta > 0 then
      match scanDown buffer bufferSize (bufferSize - s.cursorOffset) s.cursorOffset with
      | some next => { s with cursorOffset := next }
      | none => s
    else if delta < 0 then
      if s.cursorOffset > 0 then
        let search := s.cursorOffset - 1
        let search1 := if search > 0 ∧ buffer.getByte search = 0x0A then search - 1 else search
        let search2 := scanUp buffer search1
        { s with cursorOffset := if buffer.getByte search2 = 0x0A then search2 + 1 else 0 }
      else s
    else s
  else
    let newOffset := toLongLong s.cursorOffset + delta
    if 0 ≤ newOffset ∧ newOffset < toLongLong bufferSize then
      let cursor := newOffset.toNat
      if cursor < s.windowStart then
        { s with cursorOffset := cursor,
                 windowStart := (cursor / hexBinBytesPerRow) * hexBinBytesPerRow }
      else if cursor ≥ wrapSizeT (s.windowStart + visibleRows * hexBinBytesPerRow) then
        { s with cursorOffset := cursor,
                 windowStart :=
                   wrapSizeT (wrapSizeT (subSizeT (cursor / hexBinBytesPerRow) visibleRows + 1)
                     * hexBinBytesPerRow) }
      else { s with cursorOffset := cursor }
    else s

/-- Accessor of the cursor. -/
def getCursorOffset (s : DisplayEngine) : Nat :=
  s.cursorOffset

/-- Accessor of the mode. -/
def getMode (s : DisplayEngine) : EditMode :=
  s.currentMode

/-- Control sequence written before the cell under the cursor (`"\033[7m"`,
inverse video). -/
def highlightOn : String := "\x1b[7m"

/-- Control sequence written after the cell under the cursor (`"\033[0m"`). -/
def highlightOff : String := "\x1b[0m"

/-- Text written by one pass of the inner loop of `render`, for column `c` of
the row that starts at `rowStart`: nothing when the cell is outside the buffer,
otherwise the byte in the current representation, wrapped in the highlight
markers when it is the cell of the cursor, and a space unless the column is the
last one. -/
def renderCell (s : DisplayEngine) (buffer : BufferManager) (rowStart c : Nat) : List Char :=
  let current := wrapSizeT (rowStart + c)
  if current < buffer.getSize then
    let b := buffer.getByte current
    (if current = s.cursorOffset then highlightOn.data else []) ++
    (if s.currentMode = EditMode.BIN then (ConverterEngine.byteToBin b).data
      else (ConverterEngine.byteToHex b).data) ++
    (if current = s.cursorOffset then highlightOff.data else []) ++
    (if c < hexBinBytesPerRow - 1 then " ".data else [])
  else []

/-- Text written for one row of the grid: the cells of columns 0 to 15, then a
line end. -/
def renderRow (s : DisplayEngine) (buffer : BufferManager) (rowStart : Nat) : List Char :=
  ((List.range hexBinBytesPerRow).map (renderCell s buffer rowStart)).flatten ++ "\n".data

/-- The row loop `for (r = 0; r < visibleRows; ++r)` of `render`, at row `r`
with `k` rows still to go: it stops at the first row that starts outside the
buffer.  The result lists the rows written. -/
def renderRows (s : DisplayEngine) (buffer : BufferManager) : Nat → Nat → List (List Char)
  | 0, _ => []
  | k + 1, r =>
    let rowStart := wrapSizeT (s.windowStart + r * hexBinBytesPerRow)
    if rowStart ≥ buffer.getSize then []
    else renderRow s buffer rowStart :: renderRows s buffer k (r + 1)

/-- Grid part of `render` in the modes `HEX` and `BIN`: the rows written, in
order; the text sent to the output is their concatenation. -/
def renderGrid (s : DisplayEngine) (buffer : BufferManager) : List (List Char) :=
  renderRows s buffer visibleRows 0

/-- One call on the view, as issued by the command loop. -/
inductive Call
  | move (delta : Int) (buffer : BufferManager)
  | mode (m : EditMode)

/-- Effect of one call. -/
def step (s : DisplayEngine) : Call → DisplayEngine
  | Call.move delta buffer => s.moveCursor delta buffer
  | Call.mode m => s.setMode m

/-- State reached from the initial state by a finite sequence of calls. -/
def run (calls : List Call) : DisplayEngine :=
  calls.foldl step create

end DisplayEngine

/-! ## `main.cpp`: the edit commands of the command loop -/

/-- Body of `case 'h': case 'H':` with `newHex` the text read from the input:
the view switches to hexadecimal mode (rendering changes no state), and the
byte under the cursor is set only when the text parses.  An exception of
`setByte` is not caught and leaves the command. -/
def editHexCommand (buffer : BufferManager) (view : DisplayEngine) (newHex : String) :
    Except StoreError (BufferManager × DisplayEngine) :=
  let view1 := view.setMode EditMode.HEX
  let res := ConverterEngine.hexToByte newHex
  if res.1 then
    match buffer.setByte view1.getCursorOffset res.2 with
    | Except.error e => Except.error e
    | Except.ok buffer1 => Except.ok (buffer1, view1)
  else Except.ok (buffer, view1)

/-- Body of `case 'b': case 'B':` with `newBin` the text read from the input:
the view switches to binary mode, and the byte under the cursor is set only
when the text parses. -/
def editBinCommand (buffer : BufferManager) (view : DisplayEngine) (newBin : String) :
    Except StoreError (BufferManager × DisplayEngine) :=
  let view1 := view.setMode EditMode.BIN
  let res := ConverterEngine.binToByte newBin
  if res.1 then
    match buffer.setByte view1.getCursorOffset res.2 with
    | Except.error e => Except.error e
    | Except.ok buffer1 => Except.ok (buffer1, view1)
  else Except.ok (buffer, view1)

/-- Body of `case 'c': case 'C':` with `newChar` the character read from the
input: the view switches to character mode and the byte under the cursor is
set. -/
def editCharCommand (buffer : BufferManager) (view : DisplayEngine) (newChar : Char) :
    Except StoreError (BufferManager × DisplayEngine) :=
  let view1 := view.setMode EditMode.CHAR
  match buffer.setByte view1.getCursorOffset (ConverterEngine.charToByte newChar) with
  | Except.error e => Except.error e
  | Except.ok buffer1 => Except.ok (buffer1, view1)

/-! ## Reference notions taken from the specification -/

namespace Spec

/-- Sanitised byte of the specification: bytes above 127 display as `'.'`. -/
def sanitize (b : Nat) : Nat :=
  if b ≤ 127 then b else 0x2E

/-- Character of an uppercase hexadecimal digit `d < 16`. -/
def hexChar (d : Nat) : Char :=
  if d < 10 then Char.ofNat ('0'.toNat + d) else Char.ofNat ('A'.toNat + (d - 10))

/-- Uppercase hexadecimal numeral of `n` with exactly `w` digits, zero padded,
most significant digit first. -/
def hexNumeral (w n : Nat) : String :=
  String.mk ((List.range w).reverse.map (fun k => hexChar (n / 16 ^ k % 16)))

/-- Binary numeral of `n` with exactly `w` digits, zero padded, most
significant digit first. -/
def binNumeral (w n : Nat) : String :=
  String.mk ((List.range w).reverse.map (fun k => if n / 2 ^ k % 2 = 1 then '1' else '0'))

/-- Number denoted by a binary numeral read most significant digit first. -/
def binValue (cs : List Char) : Nat :=
  cs.foldl (fun acc c => 2 * acc + (if c = '1' then 1 else 0)) 0

/-- The hexadecimal digit characters, in either case. -/
def hexDigitChars : List Char :=
  "0123456789abcdefABCDEF".toList

/-- Value of a hexadecimal digit character: its place among the digits. -/
def hexCharValue (c : Char) : Nat :=
  if c ∈ "0123456789abcdef".toList then "0123456789abcdef".toList.indexOf c
  else "0123456789ABCDEF".toList.indexOf c

/-- Number denoted by a hexadecimal numeral read most significant digit
first. -/
def hexValue (cs : List Char) : Nat :=
  cs.foldl (fun acc c => 16 * acc + hexCharValue c) 0

/-- The text shows the highlighted cell exactly once: it consists of a part
free of escape characters, the highlight-on marker, the text of the cell, the
highlight-off marker, and another part free of escape characters. -/
def HighlightsOnce (cell text : List Char) : Prop :=
  ∃ pre post, text = pre ++ (DisplayEngine.highlightOn.data ++ cell ++
      DisplayEngine.highlightOff.data) ++ post ∧
    '\x1b' ∉ pre ∧ '\x1b' ∉ post

end Spec

open ConverterEngine

/-! ## Codec: display functions -/

lemma convertNonAscii_eq_sanitize (b : Nat) : convertNonAscii b = Spec.sanitize b := by
  unfold convertNonAscii Spec.sanitize
  by_cases h : b ≤ 127
  · have h2 : ¬ b > 127 := by omega
    simp [h, h2]
  · have h2 : b > 127 := by omega
    simp [h, h2]

lemma sanitize_lt (b : Nat) : Spec.sanitize b < 128 := by
  unfold Spec.sanitize
  split <;> omega

lemma hex_text_of_ascii :
    ∀ s, s < 128 → String.mk (padLeft 2 '0' (hexDigits s)) = Spec.hexNumeral 2 s := by
  decide

lemma bin_text_of_ascii :
    ∀ s, s < 128 → String.mk (bitsetToString (bitsetOfNat s)) = Spec.binNumeral 8 s := by
  decide

lemma ascii_hex_parses_back :
    ∀ s, s < 128 → hexToByte (String.mk (padLeft 2 '0' (hexDigits s))) = (true, s) := by
  decide

lemma ascii_bin_parses_back :
    ∀ s, s < 128 → binToByte (String.mk (bitsetToString (bitsetOfNat s))) = (true, s) := by
  decide

lemma byteToHex_eq (b : Nat) : byteToHex b = Spec.hexNumeral 2 (Spec.sanitize b) := by
  unfold byteToHex
  rw [convertNonAscii_eq_sanitize]
  exact hex_text_of_ascii _ (sanitize_lt b)

lemma byteToBin_eq (b : Nat) : byteToBin b = Spec.binNumeral 8 (Spec.sanitize b) := by
  unfold byteToBin
  rw [convertNonAscii_eq_sanitize]
  exact bin_text_of_ascii _ (sanitize_lt b)

lemma sanitize_of_le {b : Nat} (h : b ≤ 127) : Spec.sanitize b = b := by
  simp [Spec.sanitize, h]

lemma sanitize_of_gt {b : Nat} (h : b > 127) : Spec.sanitize b = 0x2E := by
  have h2 : ¬ b ≤ 127 := by omega
  simp [Spec.sanitize, h2]

/-- C3: for every byte `b`, with `s = b` when `b ≤ 127` and `s = 0x2E` otherwise,
`byteToHex b` is the two-digit zero-padded uppercase hexadecimal numeral of `s`,
`byteToBin b` is the eight-digit zero-padded binary numeral of `s` and
`byteToChar b` is the character with code `s`.  In particular `byteToChar b` is
`b` itself for `b ≤ 127`, and for `b > 127` the three results are `"2E"`,
`"00101110"` and `'.'`. -/
theorem display_renders_sanitized_byte (b : Nat) :
    byteToHex b = Spec.hexNumeral 2 (Spec.sanitize b) ∧
    byteToBin b = Spec.binNumeral 8 (Spec.sanitize b) ∧
    byteToChar b = Char.ofNat (Spec.sanitize b) ∧
    (b ≤ 127 → byteToChar b = Char.ofNat b) ∧
    (b > 127 → byteToHex b = "2E" ∧ byteToBin b = "00101110" ∧ byteToChar b = '.') := by
  refine ⟨byteToHex_eq b, byteToBin_eq b, ?_, ?_, ?_⟩
  · unfold byteToChar
    rw [convertNonAscii_eq_sanitize]
  · intro h
    unfold byteToChar
    rw [convertNonAscii_eq_sanitize, sanitize_of_le h]
  · intro h
    refine ⟨?_, ?_, ?_⟩
    · rw [byteToHex_eq, sanitize_of_gt h]
      decide
    · rw [byteToBin_eq, sanitize_of_gt h]
      decide
    · unfold byteToChar
      rw [convertNonAscii_eq_sanitize, sanitize_of_gt h]

/-- Instance of C3 at the bytes 254 and 65. -/
theorem display_renders_sanitized_byte_witness :
    (byteToHex 254 = "2E" ∧ byteToBin 254 = "00101110" ∧ byteToChar 254 = '.') ∧
    byteToChar 65 = 'A' :=
  ⟨(display_renders_sanitized_byte 254).2.2.2.2 (by decide),
   (display_renders_sanitized_byte 65).2.2.2.1 (by decide)⟩

/-! ## Codec: round trips -/

/-- C4: for every byte `b`, `hexToByte (byteToHex b)` succeeds with the value
`sanitize b`; the value is `b` itself exactly when `b ≤ 127`. -/
theorem hex_round_trip (b : Nat) :
    hexToByte (byteToHex b) = (true, Spec.sanitize b) ∧
    ((hexToByte (byteToHex b)).2 = b ↔ b ≤ 127) := by
  have h1 : hexToByte (byteToHex b) = (true, Spec.sanitize b) := by
    unfold byteToHex
    rw [convertNonAscii_eq_sanitize]
    exact ascii_hex_parses_back _ (sanitize_lt b)
  refine ⟨h1, ?_⟩
  rw [h1]
  constructor
  · intro h
    have := sanitize_lt b
    simp only at h
    omega
  · intro h
    exact sanitize_of_le h

/-- C5: for every byte `b`, `binToByte (byteToBin b)` succeeds with the value
`sanitize b`. -/
theorem bin_round_trip (b : Nat) :
    binToByte (byteToBin b) = (true, Spec.sanitize b) := by
  unfold byteToBin
  rw [convertNonAscii_eq_sanitize]
  exact ascii_bin_parses_back _ (sanitize_lt b)

/-! ## Codec: parsing binary text -/

lemma list_of_length_eight {α : Type} (cs : List α) (h : cs.length = 8) :
    ∃ a b c d e f g k, cs = [a, b, c, d, e, f, g, k] := by
  rcases cs with _ | ⟨a, _ | ⟨b, _ | ⟨c, _ | ⟨d, _ | ⟨e, _ | ⟨f, _ | ⟨g, _ | ⟨k, _ | ⟨i, t⟩⟩⟩⟩⟩⟩⟩⟩⟩
  all_goals simp at h
  exact ⟨a, b, c, d, e, f, g, k, rfl⟩

lemma range_eight : List.range 8 = [0, 1, 2, 3, 4, 5, 6, 7] := by decide

lemma binToByte_eq (bin : String) :
    binToByte bin =
      if bin.length = 8 ∧ ∀ c ∈ bin.data, c = '0' ∨ c = '1' then
        (true, Spec.binValue bin.data)
      else (false, 0) := by
  obtain ⟨cs⟩ := bin
  unfold binToByte
  simp only [String.length]
  by_cases hlen : cs.length = 8
  · obtain ⟨a, b, c, d, e, f, g, k, rfl⟩ := list_of_length_eight cs hlen
    by_cases hall : (a = '0' ∨ a = '1') ∧ (b = '0' ∨ b = '1') ∧ (c = '0' ∨ c = '1') ∧
        (d = '0' ∨ d = '1') ∧ (e = '0' ∨ e = '1') ∧ (f = '0' ∨ f = '1') ∧
        (g = '0' ∨ g = '1') ∧ (k = '0' ∨ k = '1')
    · simp [bitsetOfString, hall, range_eight, bitsetToUlong, Spec.binValue]
      split_ifs <;> rfl
    · simp [bitsetOfString, hall]
  · simp [hlen]

/-- C6: `binToByte` succeeds exactly on the texts of eight characters, each
`'0'` or `'1'`; on success the value is the number whose binary numeral, most
significant bit first, is the text, and every other text is reported as a
failure.  For instance `"10101010"` gives `0xAA` and `"101"` fails. -/
theorem binToByte_succeeds_iff (bin : String) :
    ((binToByte bin).1 = true ↔ bin.length = 8 ∧ ∀ c ∈ bin.data, c = '0' ∨ c = '1') ∧
    ((binToByte bin).1 = true → (binToByte bin).2 = Spec.binValue bin.data) ∧
    (¬ (bin.length = 8 ∧ ∀ c ∈ bin.data, c = '0' ∨ c = '1') → (binToByte bin).1 = false) ∧
    binToByte "10101010" = (true, 0xAA) ∧
    (binToByte "101").1 = false := by
  rw [binToByte_eq]
  refine ⟨?_, ?_, ?_, by decide, by decide⟩
  · split_ifs with h
    · exact ⟨fun _ => h, fun _ => rfl⟩
    · exact ⟨fun hf => absurd hf (by simp), fun hp => absurd hp h⟩
  · split_ifs with h <;> simp
  · intro h
    simp [h]

/-- Instance of C6 at the text `"00000111"`, which denotes 7. -/
theorem binToByte_succeeds_iff_witness :
    (binToByte "00000111").1 = true ∧ (binToByte "00000111").2 = 7 :=
  have hok : (binToByte "00000111").1 = true :=
    (binToByte_succeeds_iff "00000111").1.2 (by decide)
  ⟨hok, ((binToByte_succeeds_iff "00000111").2.1 hok).trans (by decide)⟩

/-! ## Codec: parsing hexadecimal text -/

lemma char_le_iff (a b : Char) : a ≤ b ↔ a.toNat ≤ b.toNat := Iff.rfl

lemma hexDigitValue_of_mem {c : Char} (h : c ∈ Spec.hexDigitChars) :
    hexDigitValue c = some (Spec.hexCharValue c) := by
  simp [Spec.hexDigitChars] at h
  rcases h with h | h | h | h | h | h | h | h | h | h | h | h | h | h | h | h | h | h | h | h | h | h
  all_goals subst h
  all_goals decide

lemma not_mem_of_toNat {c : Char} (h : c ∉ Spec.hexDigitChars) (n : Nat)
    (hn : Char.ofNat n ∈ Spec.hexDigitChars) : c.toNat ≠ n := by
  intro hc
  apply h
  rw [← Char.ofNat_toNat c, hc]
  exact hn

lemma hexDigitValue_of_not_mem {c : Char} (h : c ∉ Spec.hexDigitChars) :
    hexDigitValue c = none := by
  have key : ∀ n, Char.ofNat n ∈ Spec.hexDigitChars → c.toNat ≠ n :=
    fun n hn => not_mem_of_toNat h n hn
  have range_free : ∀ lo hi : Nat,
      (∀ n, lo ≤ n → n ≤ hi → Char.ofNat n ∈ Spec.hexDigitChars) →
      ¬ (lo ≤ c.toNat ∧ c.toNat ≤ hi) :=
    fun lo hi hr hc => key c.toNat (hr _ hc.1 hc.2) rfl
  have d1 : ¬ ('0' ≤ c ∧ c ≤ '9') := by
    simp only [char_le_iff]
    exact range_free 48 57 (by decide)
  have d2 : ¬ ('a' ≤ c ∧ c ≤ 'f') := by
    simp only [char_le_iff]
    exact range_free 97 102 (by decide)
  have d3 : ¬ ('A' ≤ c ∧ c ≤ 'F') := by
    simp only [char_le_iff]
    exact range_free 65 70 (by decide)
  unfold hexDigitValue
  rw [if_neg d1, if_neg d2, if_neg d3]

lemma isHexDigit_of_mem {c : Char} (h : c ∈ Spec.hexDigitChars) : isHexDigit c = true := by
  simp [isHexDigit, hexDigitValue_of_mem h]

lemma isHexDigit_of_not_mem {c : Char} (h : c ∉ Spec.hexDigitChars) : isHexDigit c = false := by
  simp [isHexDigit, hexDigitValue_of_not_mem h]

lemma plain_of_mem {c : Char} (h : c ∈ Spec.hexDigitChars) :
    isSpace c = false ∧ c ≠ '-' ∧ c ≠ '+' ∧ c ≠ 'x' ∧ c ≠ 'X' := by
  simp [Spec.hexDigitChars] at h
  rcases h with h | h | h | h | h | h | h | h | h | h | h | h | h | h | h | h | h | h | h | h | h | h
  all_goals subst h
  all_goals decide

lemma takeWhile_isHexDigit_of_mem (cs : List Char) (h : ∀ c ∈ cs, c ∈ Spec.hexDigitChars) :
    cs.takeWhile isHexDigit = cs := by
  rw [List.takeWhile_eq_self_iff]
  exact fun c hc => isHexDigit_of_mem (h c hc)

lemma foldl_accumulate_eq (cs : List Char) (h : ∀ c ∈ cs, c ∈ Spec.hexDigitChars) (acc : Nat) :
    cs.foldl (fun acc c => 16 * acc + (hexDigitValue c).getD 0) acc =
      cs.foldl (fun acc c => 16 * acc + Spec.hexCharValue c) acc := by
  induction cs generalizing acc with
  | nil => rfl
  | cons c rest ih =>
    have hc : c ∈ Spec.hexDigitChars := h c (List.mem_cons_self _ _)
    simp only [List.foldl_cons, hexDigitValue_of_mem hc, Option.getD_some]
    exact ih (fun d hd => h d (List.mem_cons_of_mem _ hd)) _

lemma accumulateHex_eq (cs : List Char) (h : ∀ c ∈ cs, c ∈ Spec.hexDigitChars) :
    accumulateHex cs = Spec.hexValue cs :=
  foldl_accumulate_eq cs h 0

lemma extractHexUnsigned_of_digits (cs : List Char) (hne : cs ≠ [])
    (hall : ∀ c ∈ cs, c ∈ Spec.hexDigitChars) (hfit : Spec.hexValue cs < 2 ^ 32) :
    extractHexUnsigned cs = some (Spec.hexValue cs) := by
  obtain ⟨c, rest, rfl⟩ := List.exists_cons_of_ne_nil hne
  have hc : c ∈ Spec.hexDigitChars := hall c (List.mem_cons_self _ _)
  have hrest : ∀ d ∈ rest, d ∈ Spec.hexDigitChars :=
    fun d hd => hall d (List.mem_cons_of_mem _ hd)
  obtain ⟨hsp, hminus, hplus, -, -⟩ := plain_of_mem hc
  have hfit2 : ¬ Spec.hexValue (c :: rest) > 4294967295 := by
    norm_num at hfit
    omega
  unfold extractHexUnsigned
  have hdrop : (c :: rest).dropWhile isSpace = c :: rest := by
    simp [List.dropWhile_cons, hsp]
  have hsign : takeSign (c :: rest) = (false, c :: rest) := by
    simp [takeSign, hminus, hplus]
  simp only [hdrop, hsign]
  by_cases hz : c = '0'
  · subst hz
    have hval : Spec.hexValue ('0' :: rest) = Spec.hexValue rest := by
      simp only [Spec.hexValue, List.foldl_cons]
      rfl
    rcases rest with _ | ⟨d, rest2⟩
    · simp only [takeZeroPrefix]
      decide
    · have hd : d ∈ Spec.hexDigitChars := hrest d (List.mem_cons_self _ _)
      obtain ⟨-, -, -, hx, hX⟩ := plain_of_mem hd
      have hpre : takeZeroPrefix ('0' :: d :: rest2) = (true, d :: rest2) := by
        simp [takeZeroPrefix, hx, hX]
      rw [hval] at hfit2 ⊢
      simp only [hpre, takeWhile_isHexDigit_of_mem _ hrest, accumulateHex_eq _ hrest]
      simp [hfit2]
  · have hpre : takeZeroPrefix (c :: rest) = (false, c :: rest) := by
      simp [takeZeroPrefix, hz]
    simp only [hpre, takeWhile_isHexDigit_of_mem _ hall, accumulateHex_eq _ hall]
    simp [hfit2]

/-- C7: for every non-empty text made only of hexadecimal digits (of either
case) whose value fits an unsigned 32-bit integer, `hexToByte` succeeds and its
value is that number modulo 256.  For instance `"A0"` gives `0xA0` and `"1FF"`
gives `0xFF`. -/
theorem hexToByte_truncates (hex : String) (hne : hex.data ≠ [])
    (hall : ∀ c ∈ hex.data, c ∈ Spec.hexDigitChars)
    (hfit : Spec.hexValue hex.data < 2 ^ 32) :
    hexToByte hex = (true, Spec.hexValue hex.data % 256) := by
  unfold hexToByte
  rw [extractHexUnsigned_of_digits hex.data hne hall hfit]

/-- Instances of C7 at the texts `"A0"` and `"1FF"`. -/
theorem hexToByte_truncates_witness :
    hexToByte "A0" = (true, 0xA0) ∧ hexToByte "1FF" = (true, 0xFF) :=
  ⟨hexToByte_truncates "A0" (by decide) (by decide) (by decide),
   hexToByte_truncates "1FF" (by decide) (by decide) (by decide)⟩

lemma mem_of_mem_takeSign (cs : List Char) : ∀ c ∈ (takeSign cs).2, c ∈ cs := by
  rcases cs with _ | ⟨a, rest⟩
  · simp [takeSign]
  · intro c hc
    simp only [takeSign] at hc
    split_ifs at hc
    · exact List.mem_cons_of_mem _ hc
    · exact List.mem_cons_of_mem _ hc
    · exact hc

lemma extractHexUnsigned_of_no_digit (cs : List Char)
    (hnone : ∀ c ∈ cs, c ∉ Spec.hexDigitChars) : extractHexUnsigned cs = none := by
  have hsigned : ∀ c ∈ (takeSign (cs.dropWhile isSpace)).2, c ∉ Spec.hexDigitChars :=
    fun c hc => hnone c
      ((List.dropWhile_sublist _).subset (mem_of_mem_takeSign _ c hc))
  unfold extractHexUnsigned
  simp only
  generalize (takeSign (cs.dropWhile isSpace)).2 = l at hsigned
  rcases l with _ | ⟨a, rest⟩
  · simp [takeZeroPrefix]
  · have ha : a ∉ Spec.hexDigitChars := hsigned a (List.mem_cons_self _ _)
    have hz : a ≠ '0' := fun h => ha (h ▸ by decide)
    have hpre : takeZeroPrefix (a :: rest) = (false, a :: rest) := by
      simp [takeZeroPrefix, hz]
    simp [hpre, List.takeWhile_cons, isHexDigit_of_not_mem ha]

/-- C8: for every text that contains no hexadecimal digit character, the empty
text included, `hexToByte` reports failure. -/
theorem hexToByte_rejects_without_digit (hex : String)
    (hnone : ∀ c ∈ hex.data, c ∉ Spec.hexDigitChars) :
    (hexToByte hex).1 = false := by
  unfold hexToByte
  rw [extractHexUnsigned_of_no_digit hex.data hnone]

/-- Instances of C8 at the empty text and at a text of signs and letters. -/
theorem hexToByte_rejects_without_digit_witness :
    (hexToByte "").1 = false ∧ (hexToByte " -xyz").1 = false :=
  ⟨hexToByte_rejects_without_digit "" (by decide),
   hexToByte_rejects_without_digit " -xyz" (by decide)⟩

/-! ## View: conversions and loops -/

open DisplayEngine

lemma toLongLong_lt (x : Nat) : toLongLong x < 9223372036854775808 := by
  unfold toLongLong wrapSizeT
  split <;> omega

lemma toLongLong_le (x : Nat) : toLongLong x ≤ (x : Int) := by
  unfold toLongLong wrapSizeT
  split <;> omega

lemma toLongLong_of_lt {x : Nat} (h : x < 9223372036854775808) : toLongLong x = (x : Int) := by
  unfold toLongLong wrapSizeT
  split <;> omega

lemma moveCursor_mode (s : DisplayEngine) (delta : Int) (buffer : BufferManager) :
    (s.moveCursor delta buffer).currentMode = s.currentMode := by
  unfold moveCursor
  simp only
  split_ifs <;> first | rfl | (split <;> rfl)

/-- The iteration bound of `scanDown` is never the reason to stop: once it
covers the rest of the buffer, a larger bound gives the same result. -/
lemma scanDown_fuel_enough (buffer : BufferManager) (n fuel i : Nat) (h : n - i ≤ fuel) :
    scanDown buffer n (fuel + 1) i = scanDown buffer n fuel i := by
  induction fuel generalizing i with
  | zero =>
    have hi : ¬ i < n := by omega
    simp [scanDown, hi]
  | succ fuel ih =>
    rw [scanDown, scanDown.eq_def buffer n (fuel + 1) i]
    simp only
    rw [ih (i + 1) (by omega)]

lemma scanDown_lt (buffer : BufferManager) (n fuel i next : Nat)
    (h : scanDown buffer n fuel i = some next) : next < n := by
  induction fuel generalizing i with
  | zero => simp [scanDown] at h
  | succ fuel ih =>
    unfold scanDown at h
    split_ifs at h with h1 h2 h3
    · cases h
      exact h3
    · exact ih _ h

lemma scanDown_none_of_no_lf (buffer : BufferManager) (n fuel i : Nat)
    (h : ∀ j, i ≤ j → j < n → buffer.getByte j ≠ 0x0A) :
    scanDown buffer n fuel i = none := by
  induction fuel generalizing i with
  | zero => rfl
  | succ fuel ih =>
    unfold scanDown
    split_ifs with h1 h2 h3
    · exact absurd h2 (h i le_rfl h1)
    · rfl
    · exact ih _ (fun j hj => h j (by omega))
    · rfl

lemma scanUp_le (buffer : BufferManager) (search : Nat) : scanUp buffer search ≤ search := by
  induction search with
  | zero => simp [scanUp]
  | succ k ih =>
    unfold scanUp
    split_ifs
    · omega
    · exact le_rfl

/-! ## View: invariants -/

lemma setMode_window (s : DisplayEngine) (m : EditMode) (hm : (s.setMode m).currentMode ≠ EditMode.CHAR) :
    (s.setMode m).windowStart % 16 = 0 ∧
    (s.setMode m).windowStart ≤ (s.setMode m).cursorOffset ∧
    (s.setMode m).cursorOffset < (s.setMode m).windowStart + 320 := by
  unfold setMode at hm ⊢
  split_ifs at hm ⊢ with h
  · simp only [hexBinBytesPerRow]
    omega
  · exact absurd hm h

lemma moveCursor_window (s : DisplayEngine) (delta : Int) (buffer : BufferManager)
    (hm : s.currentMode ≠ EditMode.CHAR)
    (hinv : s.windowStart % 16 = 0 ∧ s.windowStart ≤ s.cursorOffset ∧
      s.cursorOffset < s.windowStart + 320) :
    (s.moveCursor delta buffer).windowStart % 16 = 0 ∧
    (s.moveCursor delta buffer).windowStart ≤ (s.moveCursor delta buffer).cursorOffset ∧
    (s.moveCursor delta buffer).cursorOffset < (s.moveCursor delta buffer).windowStart + 320 := by
  have hbound := toLongLong_lt buffer.getSize
  unfold moveCursor
  simp only [hm, if_false]
  split_ifs with h1 h2 h3
  · simp only [hexBinBytesPerRow]
    omega
  · simp only [hexBinBytesPerRow, visibleRows, wrapSizeT, subSizeT] at h3 ⊢
    omega
  · simp only [hexBinBytesPerRow, visibleRows, wrapSizeT] at h3 ⊢
    omega
  · exact hinv

lemma foldl_step_window (calls : List Call) (s : DisplayEngine)
    (hinv : s.currentMode ≠ EditMode.CHAR →
      s.windowStart % 16 = 0 ∧ s.windowStart ≤ s.cursorOffset ∧
        s.cursorOffset < s.windowStart + 320)
    (hm : (calls.foldl step s).currentMode ≠ EditMode.CHAR) :
    (calls.foldl step s).windowStart % 16 = 0 ∧
    (calls.foldl step s).windowStart ≤ (calls.foldl step s).cursorOffset ∧
    (calls.foldl step s).cursorOffset < (calls.foldl step s).windowStart + 320 := by
  induction calls generalizing s with
  | nil => exact hinv hm
  | cons call rest ih =>
    simp only [List.foldl_cons] at hm ⊢
    apply ih _ _ hm
    intro hmode
    cases call with
    | move delta buffer =>
      simp only [step] at hmode ⊢
      rw [moveCursor_mode] at hmode
      exact moveCursor_window s delta buffer hmode (hinv hmode)
    | mode m =>
      simp only [step] at hmode ⊢
      exact setMode_window s m hmode

/-- C1: in every state reached from the initial state `(0, 0, HEX)` by a finite
sequence of `moveCursor` calls (any delta, any buffer at each call) and
`setMode` calls, if the mode is `HEX` or `BIN` then `windowStart` is a multiple
of 16 and `windowStart ≤ cursorOffset < windowStart + 320`. -/
theorem window_invariant (calls : List Call)
    (hm : (run calls).currentMode = EditMode.HEX ∨ (run calls).currentMode = EditMode.BIN) :
    (run calls).windowStart % 16 = 0 ∧
    (run calls).windowStart ≤ (run calls).cursorOffset ∧
    (run calls).cursorOffset < (run calls).windowStart + 320 := by
  have hne : (run calls).currentMode ≠ EditMode.CHAR := by
    rcases hm with h | h <;> rw [h] <;> decide
  exact foldl_step_window calls create (fun _ => by decide) hne

set_option maxRecDepth 100000 in
/-- Instance of C1: on a buffer of 401 bytes, a jump to offset 400, a visit to
character mode and a return to binary mode. -/
theorem window_invariant_witness :
    (run [Call.move 400 ⟨List.replicate 401 0x41, "", false⟩, Call.mode EditMode.CHAR,
        Call.move (-1) ⟨List.replicate 401 0x41, "", false⟩,
        Call.mode EditMode.BIN]).windowStart % 16 = 0 ∧
    (run [Call.move 400 ⟨List.replicate 401 0x41, "", false⟩, Call.mode EditMode.CHAR,
        Call.move (-1) ⟨List.replicate 401 0x41, "", false⟩,
        Call.mode EditMode.BIN]).windowStart ≤
      (run [Call.move 400 ⟨List.replicate 401 0x41, "", false⟩, Call.mode EditMode.CHAR,
        Call.move (-1) ⟨List.replicate 401 0x41, "", false⟩,
        Call.mode EditMode.BIN]).cursorOffset ∧
    (run [Call.move 400 ⟨List.replicate 401 0x41, "", false⟩, Call.mode EditMode.CHAR,
        Call.move (-1) ⟨List.replicate 401 0x41, "", false⟩,
        Call.mode EditMode.BIN]).cursorOffset <
      (run [Call.move 400 ⟨List.replicate 401 0x41, "", false⟩, Call.mode EditMode.CHAR,
        Call.move (-1) ⟨List.replicate 401 0x41, "", false⟩,
        Call.mode EditMode.BIN]).windowStart + 320 :=
  window_invariant _ (Or.inr (by decide))

lemma moveCursor_up_le (buffer : BufferManager) (c : Nat) (h0 : c > 0) :
    (if buffer.getByte (scanUp buffer
          (if c - 1 > 0 ∧ buffer.getByte (c - 1) = 0x0A then c - 1 - 1 else c - 1)) = 0x0A
      then scanUp buffer
          (if c - 1 > 0 ∧ buffer.getByte (c - 1) = 0x0A then c - 1 - 1 else c - 1) + 1
      else 0) ≤ c := by
  generalize hs : (if c - 1 > 0 ∧ buffer.getByte (c - 1) = 0x0A then c - 1 - 1 else c - 1) = search1
  have h1 : search1 ≤ c - 1 := by
    rw [← hs]
    split_ifs <;> omega
  have h2 := scanUp_le buffer search1
  split_ifs <;> omega

/-- C2: for every buffer of size `n`, every view state with `cursorOffset < n`
(so that `n > 0`), in any mode, and every delta, the state after `moveCursor`
still has `cursorOffset < n`, and so has the state after `setMode` to any
mode. -/
theorem cursor_bound_preserved (s : DisplayEngine) (buffer : BufferManager) (delta : Int)
    (m : EditMode) (hc : s.cursorOffset < buffer.getSize) :
    (s.moveCursor delta buffer).cursorOffset < buffer.getSize ∧
    (s.setMode m).cursorOffset < buffer.getSize := by
  have hle := toLongLong_le buffer.getSize
  constructor
  · unfold moveCursor
    simp only
    by_cases hmode : s.currentMode = EditMode.CHAR
    · simp only [hmode, if_true]
      by_cases hd : delta = 1 ∨ delta = -1
      · simp only [hd, if_true]
        split_ifs with h
        · simp only
          omega
        · exact hc
      · simp only [hd, if_false]
        by_cases hpos : delta > 0
        · simp only [hpos, if_true]
          split
          · next next hnext => exact scanDown_lt _ _ _ _ _ hnext
          · exact hc
        · simp only [hpos, if_false]
          by_cases hneg : delta < 0
          · simp only [hneg, if_true]
            by_cases h0 : s.cursorOffset > 0
            · simp only [h0, if_true]
              exact lt_of_le_of_lt (moveCursor_up_le buffer s.cursorOffset h0) hc
            · simp only [h0, if_false]
              exact hc
          · simp only [hneg, if_false]
            exact hc
    · simp only [hmode, if_false]
      split_ifs
      all_goals first | exact hc | (simp only; omega)
  · unfold setMode
    split_ifs <;> exact hc

/-- Instance of C2: a move "down" in character mode on the text `a\nb\nc`, from
offset 2. -/
theorem cursor_bound_preserved_witness :
    (DisplayEngine.moveCursor ⟨2, 0, EditMode.CHAR⟩ 16
        ⟨[97, 10, 98, 10, 99], "", false⟩).cursorOffset <
      BufferManager.getSize ⟨[97, 10, 98, 10, 99], "", false⟩ ∧
    (DisplayEngine.setMode ⟨2, 0, EditMode.CHAR⟩ EditMode.HEX).cursorOffset <
      BufferManager.getSize ⟨[97, 10, 98, 10, 99], "", false⟩ :=
  cursor_bound_preserved ⟨2, 0, EditMode.CHAR⟩ ⟨[97, 10, 98, 10, 99], "", false⟩ 16
    EditMode.HEX (by decide)

/-! ## View: rejected moves -/

lemma moveCursor_rejects (s : DisplayEngine) (buffer : BufferManager) (delta : Int)
    (hrep : s.cursorOffset < 2 ^ 63)
    (hmode : s.currentMode = EditMode.HEX ∨ s.currentMode = EditMode.BIN ∨
      (s.currentMode = EditMode.CHAR ∧ (delta = 1 ∨ delta = -1)))
    (hout : ¬ (0 ≤ (s.cursorOffset : Int) + delta ∧
      (s.cursorOffset : Int) + delta < (buffer.getSize : Int))) :
    s.moveCursor delta buffer = s := by
  have hle := toLongLong_le buffer.getSize
  have hcur : toLongLong s.cursorOffset = (s.cursorOffset : Int) :=
    toLongLong_of_lt (by norm_num at hrep; exact hrep)
  have hrej : ¬ (0 ≤ toLongLong s.cursorOffset + delta ∧
      toLongLong s.cursorOffset + delta < toLongLong buffer.getSize) := by
    rw [hcur]
    intro h
    exact hout ⟨h.1, by omega⟩
  unfold moveCursor
  simp only
  rcases hmode with h | h | ⟨h, hd⟩
  · simp [h, hrej]
  · simp [h, hrej]
  · simp only [h, if_true, hd, hrej, if_false]

/-- C9: for every buffer of size `n` (also `n = 0`) and every view state whose
cursor offset lies in the range of `long long` (below `2 ^ 63`, as every offset
into a `std::vector` does): if the mode is `HEX` or `BIN` and delta is any
integer, or the mode is `CHAR` and delta is `1` or `-1`, and
`cursorOffset + delta` lies outside `[0, n)`, then `moveCursor` changes nothing,
neither `cursorOffset` nor `windowStart` nor the mode.  In particular a move left
from offset 0 and a move right from offset `n - 1` leave `cursorOffset`
unchanged. -/
theorem out_of_range_move_rejected (s : DisplayEngine) (buffer : BufferManager)
    (hrep : s.cursorOffset < 2 ^ 63) :
    (∀ delta : Int,
      (s.currentMode = EditMode.HEX ∨ s.currentMode = EditMode.BIN ∨
        (s.currentMode = EditMode.CHAR ∧ (delta = 1 ∨ delta = -1))) →
      ¬ (0 ≤ (s.cursorOffset : Int) + delta ∧
        (s.cursorOffset : Int) + delta < (buffer.getSize : Int)) →
      s.moveCursor delta buffer = s) ∧
    (s.cursorOffset = 0 → (s.moveCursor (-1) buffer).cursorOffset = s.cursorOffset) ∧
    (s.cursorOffset + 1 = buffer.getSize →
      (s.moveCursor 1 buffer).cursorOffset = s.cursorOffset) := by
  have hmode : ∀ delta : Int, delta = 1 ∨ delta = -1 →
      (s.currentMode = EditMode.HEX ∨ s.currentMode = EditMode.BIN ∨
        (s.currentMode = EditMode.CHAR ∧ (delta = 1 ∨ delta = -1))) := by
    intro delta hd
    cases hcm : s.currentMode
    · exact Or.inl rfl
    · exact Or.inr (Or.inl rfl)
    · exact Or.inr (Or.inr ⟨rfl, hd⟩)
  refine ⟨fun delta hm hout => moveCursor_rejects s buffer delta hrep hm hout, ?_, ?_⟩
  · intro h0
    rw [moveCursor_rejects s buffer (-1) hrep (hmode _ (Or.inr rfl)) (by omega)]
  · intro hlast
    rw [moveCursor_rejects s buffer 1 hrep (hmode _ (Or.inl rfl)) (by omega)]

/-- Instance of C9: on a buffer of three bytes, a move by 16 from offset 1 in
hexadecimal mode is rejected, and so is a move right from offset 2 in character
mode. -/
theorem out_of_range_move_rejected_witness :
    DisplayEngine.moveCursor ⟨1, 0, EditMode.HEX⟩ 16 ⟨[1, 2, 3], "", false⟩ =
      ⟨1, 0, EditMode.HEX⟩ ∧
    (DisplayEngine.moveCursor ⟨2, 0, EditMode.CHAR⟩ 1 ⟨[1, 2, 3], "", false⟩).cursorOffset = 2 :=
  ⟨(out_of_range_move_rejected ⟨1, 0, EditMode.HEX⟩ ⟨[1, 2, 3], "", false⟩ (by decide)).1 16
      (Or.inl rfl) (by decide),
   (out_of_range_move_rejected ⟨2, 0, EditMode.CHAR⟩ ⟨[1, 2, 3], "", false⟩ (by decide)).2.2
      (by decide)⟩

/-! ## View: vertical moves in character mode at the edges -/

/-- C10: in character mode, for every buffer and every in-range `cursorOffset`
such that no line feed occurs at any index from `cursorOffset` on, `moveCursor`
with a delta above 1 ("down") leaves `cursorOffset` unchanged; and for every
buffer, `moveCursor` with a delta below -1 ("up") from `cursorOffset = 0` leaves
it unchanged. -/
theorem char_vertical_edge_moves (s : DisplayEngine) (buffer : BufferManager) (delta : Int)
    (hm : s.currentMode = EditMode.CHAR) :
    (s.cursorOffset < buffer.getSize →
      (∀ j, s.cursorOffset ≤ j → j < buffer.getSize → buffer.getByte j ≠ 0x0A) →
      1 < delta → (s.moveCursor delta buffer).cursorOffset = s.cursorOffset) ∧
    (s.cursorOffset = 0 → delta < -1 →
      (s.moveCursor delta buffer).cursorOffset = s.cursorOffset) := by
  constructor
  · intro _ hnolf hd
    have h1 : ¬ (delta = 1 ∨ delta = -1) := by omega
    have h2 : delta > 0 := by omega
    unfold moveCursor
    simp only [hm, if_true, h1, if_false, h2,
      scanDown_none_of_no_lf buffer buffer.getSize _ _ hnolf]
  · intro h0 hd
    have h1 : ¬ (delta = 1 ∨ delta = -1) := by omega
    have h2 : ¬ delta > 0 := by omega
    have h3 : delta < 0 := by omega
    have h4 : ¬ s.cursorOffset > 0 := by omega
    unfold moveCursor
    simp only [hm, if_true, h1, if_false, h2, h3, h4]

/-- Instance of C10: on the text `a\nbc`, "down" from offset 2 (last line) and
"up" from offset 0 leave the cursor where it is. -/
theorem char_vertical_edge_moves_witness :
    (DisplayEngine.moveCursor ⟨2, 0, EditMode.CHAR⟩ 16
        ⟨[97, 10, 98, 99], "", false⟩).cursorOffset = 2 ∧
    (DisplayEngine.moveCursor ⟨0, 0, EditMode.CHAR⟩ (-16)
        ⟨[97, 10, 98, 99], "", false⟩).cursorOffset = 0 :=
  ⟨(char_vertical_edge_moves ⟨2, 0, EditMode.CHAR⟩ ⟨[97, 10, 98, 99], "", false⟩ 16 rfl).1
      (by decide) (by decide) (by decide),
   (char_vertical_edge_moves ⟨0, 0, EditMode.CHAR⟩ ⟨[97, 10, 98, 99], "", false⟩ (-16) rfl).2
      rfl (by decide)⟩

/-! ## Byte store -/

lemma getD_set_self (l : List Nat) (o v : Nat) (h : o < l.length) :
    (l.set o v).getD o 0 = v := by
  simp [List.getD_eq_getElem?_getD, List.getElem?_set, h]

lemma setByte_in_range (b : BufferManager) (o v : Nat) (ho : o + 1 < 2 ^ 63) :
    b.setByte o v = Except.ok
      { buffer := (if o ≥ b.buffer.length then
            b.buffer ++ List.replicate (o + 1 - b.buffer.length) 0
          else b.buffer).set o v,
        filename := b.filename, modified := true } := by
  norm_num at ho
  unfold BufferManager.setByte BufferManager.resize
  by_cases h1 : o ≥ b.buffer.length
  · have hw : wrapSizeT (o + 1) = o + 1 := by
      unfold wrapSizeT
      omega
    have hmax : ¬ o + 1 > BufferManager.maxSize := by
      unfold BufferManager.maxSize
      omega
    have htake : b.buffer.take (o + 1) = b.buffer := List.take_of_length_le (by omega)
    have hlen : o < (b.buffer ++ List.replicate (o + 1 - b.buffer.length) 0).length := by
      simp only [List.length_append, List.length_replicate]
      omega
    simp only [h1, if_true, hw, hmax, if_false, htake, hlen]
  · simp only [h1, if_false]

/-- Outside the range of vector sizes the call does not return: at
`offset = 2 ^ 63 - 1` the resize to `2 ^ 63` throws `std::length_error`. -/
lemma setByte_above_max_size (b : BufferManager) (v : Nat) (hn : b.buffer.length < 2 ^ 63) :
    b.setByte (2 ^ 63 - 1) v = Except.error StoreError.lengthError := by
  norm_num at hn
  have h1 : (2 ^ 63 - 1 : Nat) ≥ b.buffer.length := by
    norm_num
    omega
  unfold BufferManager.setByte BufferManager.resize
  simp only [h1, if_true]
  norm_num [wrapSizeT, BufferManager.maxSize]

/-- C11, as the code allows it: for every store of size `n`, every offset `o`
whose successor is a size a `std::vector` can have (`o + 1 < 2 ^ 63`) and every
byte `v`, `setByte o v` returns, and afterwards the byte read at `o` is `v`, the
store is modified and its size is `max n (o + 1)`.  In particular, setting
byte 0 of the empty store to `0xDE` gives a store of size 1 whose byte 0 is
`0xDE` and which is modified. -/
theorem setByte_then_getByte (b : BufferManager) (o v : Nat) (ho : o + 1 < 2 ^ 63) :
    (∃ b', b.setByte o v = Except.ok b' ∧
      b'.getByte o = v ∧ b'.isModified = true ∧ b'.getSize = max b.getSize (o + 1)) ∧
    (∃ b0, BufferManager.create.setByte 0 0xDE = Except.ok b0 ∧
      b0.getSize = 1 ∧ b0.getByte 0 = 0xDE ∧ b0.isModified = true) := by
  constructor
  · refine ⟨_, setByte_in_range b o v ho, ?_, rfl, ?_⟩
    · unfold BufferManager.getByte
      simp only
      by_cases h1 : o ≥ b.buffer.length
      · have h2 : o < (b.buffer ++ List.replicate (o + 1 - b.buffer.length) 0).length := by
          simp only [List.length_append, List.length_replicate]
          omega
        simp only [h1, if_true, List.length_set, h2]
        exact getD_set_self _ _ _ h2
      · have h2 : o < b.buffer.length := by omega
        simp only [h1, if_false, List.length_set, h2, if_true]
        exact getD_set_self _ _ _ h2
    · unfold BufferManager.getSize
      simp only
      split_ifs with h1
      · simp only [List.length_set, List.length_append, List.length_replicate]
        omega
      · simp only [List.length_set]
        omega
  · exact ⟨_, setByte_in_range BufferManager.create 0 0xDE (by decide), by decide, by decide, rfl⟩

/-- Instance of C11, as the code allows it: writing offset 4 of a store of two
bytes gives a store of five bytes that reads the written byte at 4. -/
theorem setByte_then_getByte_witness :
    ∃ b', BufferManager.setByte ⟨[7, 8], "", false⟩ 4 5 = Except.ok b' ∧
      b'.getByte 4 = 5 ∧ b'.isModified = true ∧
      b'.getSize = max (BufferManager.getSize ⟨[7, 8], "", false⟩) (4 + 1) :=
  (setByte_then_getByte ⟨[7, 8], "", false⟩ 4 5 (by decide)).1

/-- C11 fails as stated: on the empty store, `setByte` at offset `2 ^ 63 - 1`
asks `resize` for `2 ^ 63` bytes, more than a vector can hold; `resize` throws
`std::length_error`, so no store results of size `2 ^ 63` that reads `0xDE` at
that offset. -/
theorem setByte_beyond_vector_size :
    BufferManager.create.setByte (2 ^ 63 - 1) 0xDE = Except.error StoreError.lengthError ∧
    ¬ (∃ b', BufferManager.create.setByte (2 ^ 63 - 1) 0xDE = Except.ok b' ∧
      b'.getByte (2 ^ 63 - 1) = 0xDE ∧ b'.isModified = true ∧
      b'.getSize = max BufferManager.create.getSize (2 ^ 63 - 1 + 1)) := by
  have h := setByte_above_max_size BufferManager.create 0xDE (by decide)
  refine ⟨h, ?_⟩
  rintro ⟨b', hb, -⟩
  rw [h] at hb
  cases hb

/-- C12: for every view state and every mode `m`, `setMode m` sets the mode to
`m` and leaves `cursorOffset` unchanged; the new `windowStart` is
`cursorOffset / 16 * 16` when `m` is `HEX` or `BIN`, and 0 when `m` is `CHAR`. -/
theorem setMode_effect (s : DisplayEngine) (m : EditMode) :
    (s.setMode m).currentMode = m ∧
    (s.setMode m).cursorOffset = s.cursorOffset ∧
    (m = EditMode.HEX ∨ m = EditMode.BIN →
      (s.setMode m).windowStart = s.cursorOffset / 16 * 16) ∧
    (m = EditMode.CHAR → (s.setMode m).windowStart = 0) := by
  cases m <;> simp [setMode, hexBinBytesPerRow]

/-- Instance of C12 at the state `(37, 0, CHAR)`: binary mode aligns the window
to 32, character mode resets it to 0. -/
theorem setMode_effect_witness :
    (DisplayEngine.setMode ⟨37, 0, EditMode.CHAR⟩ EditMode.BIN).windowStart = 32 ∧
    (DisplayEngine.setMode ⟨37, 16, EditMode.HEX⟩ EditMode.CHAR).windowStart = 0 :=
  ⟨(setMode_effect ⟨37, 0, EditMode.CHAR⟩ EditMode.BIN).2.2.1 (Or.inr rfl),
   (setMode_effect ⟨37, 16, EditMode.HEX⟩ EditMode.CHAR).2.2.2 rfl⟩

/-! ## Command loop: discarded edits -/

/-- C13: for every byte store, every view state and every input text on which
`hexToByte` (hex edit) or `binToByte` (binary edit) reports failure, the edit
command returns with the byte store as it was: the same bytes, size and
modified flag (and with the view switched to the mode of the edit). -/
theorem invalid_edit_discarded (buffer : BufferManager) (view : DisplayEngine)
    (input : String) :
    ((hexToByte input).1 = false →
      editHexCommand buffer view input = Except.ok (buffer, view.setMode EditMode.HEX)) ∧
    ((binToByte input).1 = false →
      editBinCommand buffer view input = Except.ok (buffer, view.setMode EditMode.BIN)) := by
  constructor
  · intro h
    simp [editHexCommand, h]
  · intro h
    simp [editBinCommand, h]

/-- Instance of C13: the texts `"zz"` and `"101"` are refused and the store
`[1, 2, 3]` stays as it was. -/
theorem invalid_edit_discarded_witness :
    editHexCommand ⟨[1, 2, 3], "f", false⟩ ⟨1, 0, EditMode.CHAR⟩ "zz" =
      Except.ok (⟨[1, 2, 3], "f", false⟩, ⟨1, 0, EditMode.HEX⟩) ∧
    editBinCommand ⟨[1, 2, 3], "f", false⟩ ⟨1, 0, EditMode.CHAR⟩ "101" =
      Except.ok (⟨[1, 2, 3], "f", false⟩, ⟨1, 0, EditMode.BIN⟩) :=
  ⟨(invalid_edit_discarded ⟨[1, 2, 3], "f", false⟩ ⟨1, 0, EditMode.CHAR⟩ "zz").1 (by decide),
   (invalid_edit_discarded ⟨[1, 2, 3], "f", false⟩ ⟨1, 0, EditMode.CHAR⟩ "101").2 (by decide)⟩

/-! ## View: scrolling in the grid modes -/

/-- C14: in `HEX` or `BIN` mode, for every state and every delta such that
`c' = cursorOffset + delta` lies in `[0, bufferSize)` (cursor and buffer size
in the range of `long long`, as for every `std::vector`), `moveCursor` sets
`cursorOffset` to `c'` and
(i) if `c' < windowStart`, the new `windowStart` is `c' / 16 * 16`;
(ii) if `c' ≥ windowStart + 320`, then `c' / 16 ≥ 20`, so the unsigned
subtraction does not wrap, the new `windowStart` is `(c' / 16 - 19) * 16`, and
the row of the cursor is the last of the 20 rows shown;
(iii) otherwise `windowStart` is unchanged.
The alignment of the old `windowStart` is not needed. -/
theorem grid_scroll_after_move (s : DisplayEngine) (buffer : BufferManager) (delta : Int)
    (c' : Nat)
    (hmode : s.currentMode = EditMode.HEX ∨ s.currentMode = EditMode.BIN)
    (hrep : s.cursorOffset < 2 ^ 63) (hsize : buffer.getSize < 2 ^ 63)
    (hsum : (c' : Int) = (s.cursorOffset : Int) + delta) (hin : c' < buffer.getSize) :
    (s.moveCursor delta buffer).cursorOffset = c' ∧
    (c' < s.windowStart → (s.moveCursor delta buffer).windowStart = c' / 16 * 16) ∧
    (c' ≥ s.windowStart + 320 →
      20 ≤ c' / 16 ∧
      (s.moveCursor delta buffer).windowStart = (c' / 16 - 19) * 16 ∧
      c' / 16 = (s.moveCursor delta buffer).windowStart / 16 + 19) ∧
    (s.windowStart ≤ c' → c' < s.windowStart + 320 →
      (s.moveCursor delta buffer).windowStart = s.windowStart) := by
  have hm : s.currentMode ≠ EditMode.CHAR := by
    rcases hmode with h | h <;> rw [h] <;> decide
  norm_num at hrep hsize
  have hcur : toLongLong s.cursorOffset = (s.cursorOffset : Int) := toLongLong_of_lt hrep
  have hbuf : toLongLong buffer.getSize = (buffer.getSize : Int) := toLongLong_of_lt hsize
  have hacc : 0 ≤ toLongLong s.cursorOffset + delta ∧
      toLongLong s.cursorOffset + delta < toLongLong buffer.getSize := by
    rw [hcur, hbuf]
    omega
  have hnat : (toLongLong s.cursorOffset + delta).toNat = c' := by
    rw [hcur]
    omega
  unfold moveCursor
  simp only [hm, if_false, hacc, and_self, if_true, hnat]
  simp only [hexBinBytesPerRow, visibleRows, wrapSizeT, subSizeT]
  split_ifs with h1 h2
  · refine ⟨rfl, fun _ => rfl, fun h => ?_, fun h => ?_⟩ <;> omega
  · refine ⟨rfl, fun h => ?_, fun h => ?_, fun h3 h4 => ?_⟩
    · omega
    · simp only
      omega
    · simp only
      omega
  · refine ⟨rfl, fun h => ?_, fun h => ?_, fun _ _ => rfl⟩ <;> omega

/-- Instance of C14 on a buffer of 401 bytes: from cursor 5 a move by 395
scrolls the window from 0 to 96, which puts row 25 of the cursor last. -/
theorem grid_scroll_after_move_witness :
    (DisplayEngine.moveCursor ⟨5, 0, EditMode.HEX⟩ 395
        ⟨List.replicate 401 0x41, "", false⟩).cursorOffset = 400 ∧
    (DisplayEngine.moveCursor ⟨5, 0, EditMode.HEX⟩ 395
        ⟨List.replicate 401 0x41, "", false⟩).windowStart = (400 / 16 - 19) * 16 :=
  have h := grid_scroll_after_move ⟨5, 0, EditMode.HEX⟩ ⟨List.replicate 401 0x41, "", false⟩
    395 400 (Or.inl rfl) (by decide)
    (by show (List.replicate 401 0x41).length < 2 ^ 63; rw [List.length_replicate]; decide)
    (by decide)
    (by show 400 < (List.replicate 401 0x41).length; rw [List.length_replicate]; decide)
  ⟨h.1, (h.2.2.1 (by decide)).2.1⟩

/-! ## View: the move "down" in character mode -/

lemma scanDown_first_lf (buffer : BufferManager) (n fuel c i : Nat)
    (hci : c ≤ i) (hin : i < n) (hlf : buffer.getByte i = 0x0A)
    (hmin : ∀ j, c ≤ j → j < i → buffer.getByte j ≠ 0x0A) (hfuel : i - c < fuel) :
    scanDown buffer n fuel c = if i + 1 < n then some (i + 1) else none := by
  induction fuel generalizing c with
  | zero => omega
  | succ fuel ih =>
    have hcn : c < n := by omega
    unfold scanDown
    simp only [hcn, if_true]
    by_cases hc : buffer.getByte c = 0x0A
    · have heq : c = i := by
        by_contra hne
        exact hmin c le_rfl (by omega) hc
      subst heq
      simp only [hc, if_true]
    · have hne : c ≠ i := fun h => hc (h ▸ hlf)
      simp only [hc, if_false]
      exact ih (c + 1) (by omega) (fun j h1 h2 => hmin j (by omega) h2) (by omega)

lemma moveCursor_down (s : DisplayEngine) (buffer : BufferManager) (delta : Int)
    (hm : s.currentMode = EditMode.CHAR) (hd : 1 < delta) :
    s.moveCursor delta buffer =
      match scanDown buffer buffer.getSize (buffer.getSize - s.cursorOffset) s.cursorOffset with
      | some next => { s with cursorOffset := next }
      | none => s := by
  have h1 : ¬ (delta = 1 ∨ delta = -1) := by omega
  have h2 : delta > 0 := by omega
  unfold moveCursor
  simp only [hm, if_true, h1, if_false, h2]

/-- C15: in character mode, for every buffer of size `n`, every cursor
`c < n` and every delta above 1, let `i` be the least index with `c ≤ i < n`
that holds a line feed.  If `i` exists and `i + 1 < n`, `moveCursor` sets
`cursorOffset` to `i + 1`; otherwise (`i + 1 = n`, or no line feed from `c` on)
`cursorOffset` is unchanged.  `windowStart` and the mode are unchanged in every
case. -/
theorem char_down_reference (s : DisplayEngine) (buffer : BufferManager) (delta : Int)
    (hm : s.currentMode = EditMode.CHAR) (hc : s.cursorOffset < buffer.getSize)
    (hd : 1 < delta) :
    (∀ i, s.cursorOffset ≤ i → i < buffer.getSize → buffer.getByte i = 0x0A →
      (∀ j, s.cursorOffset ≤ j → j < i → buffer.getByte j ≠ 0x0A) →
      (s.moveCursor delta buffer).cursorOffset =
        if i + 1 < buffer.getSize then i + 1 else s.cursorOffset) ∧
    ((∀ j, s.cursorOffset ≤ j → j < buffer.getSize → buffer.getByte j ≠ 0x0A) →
      (s.moveCursor delta buffer).cursorOffset = s.cursorOffset) ∧
    (s.moveCursor delta buffer).windowStart = s.windowStart ∧
    (s.moveCursor delta buffer).currentMode = s.currentMode := by
  rw [moveCursor_down s buffer delta hm hd]
  refine ⟨?_, ?_, ?_, ?_⟩
  · intro i hci hin hlf hmin
    rw [scanDown_first_lf buffer _ _ _ i hci hin hlf hmin (by omega)]
    split_ifs <;> rfl
  · intro hnone
    rw [scanDown_none_of_no_lf buffer _ _ _ hnone]
  · split <;> rfl
  · split <;> rfl

/-- Instance of C15 on the text `ab\ncd\n`: from offset 0 the first line feed is
at 2 and the cursor goes to 3; from offset 3 the first line feed is the last
byte and the cursor stays. -/
theorem char_down_reference_witness :
    (DisplayEngine.moveCursor ⟨0, 0, EditMode.CHAR⟩ 16
        ⟨[97, 98, 10, 99, 100, 10], "", false⟩).cursorOffset = 3 ∧
    (DisplayEngine.moveCursor ⟨3, 0, EditMode.CHAR⟩ 16
        ⟨[97, 98, 10, 99, 100, 10], "", false⟩).cursorOffset = 3 :=
  ⟨(char_down_reference ⟨0, 0, EditMode.CHAR⟩ ⟨[97, 98, 10, 99, 100, 10], "", false⟩ 16
      rfl (by decide) (by decide)).1 2 (by decide) (by decide) (by decide) (by decide),
   (char_down_reference ⟨3, 0, EditMode.CHAR⟩ ⟨[97, 98, 10, 99, 100, 10], "", false⟩ 16
      rfl (by decide) (by decide)).1 5 (by decide) (by decide) (by decide) (by decide)⟩

/-! ## View: the move "up" in character mode -/

lemma scanUp_spec (buffer : BufferManager) (p : Nat) :
    (scanUp buffer p = 0 ∨ buffer.getByte (scanUp buffer p) = 0x0A) ∧
    ∀ j, scanUp buffer p < j → j ≤ p → buffer.getByte j ≠ 0x0A := by
  induction p with
  | zero =>
    refine ⟨Or.inl rfl, fun j h1 h2 => ?_⟩
    simp only [scanUp] at h1
    omega
  | succ k ih =>
    unfold scanUp
    by_cases h : buffer.getByte (k + 1) = 0x0A
    · have hif : ¬ buffer.getByte (k + 1) ≠ 0x0A := fun hne => hne h
      rw [if_neg hif]
      exact ⟨Or.inr h, fun j h1 h2 => by omega⟩
    · rw [if_pos h]
      refine ⟨ih.1, fun j h1 h2 => ?_⟩
      by_cases hj : j = k + 1
      · rw [hj]
        exact h
      · exact ih.2 j h1 (by omega)

lemma moveCursor_up (s : DisplayEngine) (buffer : BufferManager) (delta : Int)
    (hm : s.currentMode = EditMode.CHAR) (hd : delta < -1) (h0 : 0 < s.cursorOffset) :
    (s.moveCursor delta buffer).cursorOffset =
      if buffer.getByte (scanUp buffer
          (if s.cursorOffset - 1 > 0 ∧ buffer.getByte (s.cursorOffset - 1) = 0x0A
            then s.cursorOffset - 1 - 1 else s.cursorOffset - 1)) = 0x0A
      then scanUp buffer
          (if s.cursorOffset - 1 > 0 ∧ buffer.getByte (s.cursorOffset - 1) = 0x0A
            then s.cursorOffset - 1 - 1 else s.cursorOffset - 1) + 1
      else 0 := by
  have h1 : ¬ (delta = 1 ∨ delta = -1) := by omega
  have h2 : ¬ delta > 0 := by omega
  have h3 : delta < 0 := by omega
  have h4 : s.cursorOffset > 0 := h0
  unfold moveCursor
  simp only [hm, if_true, h1, if_false, h2, h3, h4]

lemma moveCursor_up_at_zero (s : DisplayEngine) (buffer : BufferManager) (delta : Int)
    (hm : s.currentMode = EditMode.CHAR) (hd : delta < -1) (h0 : s.cursorOffset = 0) :
    s.moveCursor delta buffer = s := by
  have h1 : ¬ (delta = 1 ∨ delta = -1) := by omega
  have h2 : ¬ delta > 0 := by omega
  have h3 : delta < 0 := by omega
  have h4 : ¬ s.cursorOffset > 0 := by omega
  unfold moveCursor
  simp only [hm, if_true, h1, if_false, h2, h3, h4]

/-- C17: in character mode, for every buffer, every cursor `c` (in particular
every `c` inside the buffer) and every delta below -1, the cursor `c'` after
`moveCursor` satisfies `c' ≤ c`, and `c' = 0` or the byte at `c' - 1` is a line
feed.  Moreover, for `c > 0`, with `p = c - 2` if `c ≥ 2` and the byte at
`c - 1` is a line feed, and `p = c - 1` otherwise: `c' = j + 1` for the
greatest index `j ≤ p` holding a line feed, and `c' = 0` if there is none. -/
theorem char_up_reference (s : DisplayEngine) (buffer : BufferManager) (delta : Int)
    (hm : s.currentMode = EditMode.CHAR) (hd : delta < -1) :
    (s.moveCursor delta buffer).cursorOffset ≤ s.cursorOffset ∧
    ((s.moveCursor delta buffer).cursorOffset = 0 ∨
      buffer.getByte ((s.moveCursor delta buffer).cursorOffset - 1) = 0x0A) ∧
    (0 < s.cursorOffset →
      ∀ p, p = (if 2 ≤ s.cursorOffset ∧ buffer.getByte (s.cursorOffset - 1) = 0x0A
                then s.cursorOffset - 2 else s.cursorOffset - 1) →
        (∀ j, j ≤ p → buffer.getByte j = 0x0A →
          (∀ k, j < k → k ≤ p → buffer.getByte k ≠ 0x0A) →
          (s.moveCursor delta buffer).cursorOffset = j + 1) ∧
        ((∀ j, j ≤ p → buffer.getByte j ≠ 0x0A) →
          (s.moveCursor delta buffer).cursorOffset = 0)) := by
  by_cases h0 : 0 < s.cursorOffset
  · have hup := moveCursor_up s buffer delta hm hd h0
    have hle := moveCursor_up_le buffer s.cursorOffset h0
    have hp : (if s.cursorOffset - 1 > 0 ∧ buffer.getByte (s.cursorOffset - 1) = 0x0A
            then s.cursorOffset - 1 - 1 else s.cursorOffset - 1) =
        (if 2 ≤ s.cursorOffset ∧ buffer.getByte (s.cursorOffset - 1) = 0x0A
                then s.cursorOffset - 2 else s.cursorOffset - 1) := by
      by_cases hlf : buffer.getByte (s.cursorOffset - 1) = 0x0A
      · by_cases h2 : 2 ≤ s.cursorOffset
        · have h3 : s.cursorOffset - 1 > 0 := by omega
          simp only [hlf, h2, h3, and_self, if_true]
          omega
        · have h3 : ¬ s.cursorOffset - 1 > 0 := by omega
          simp only [hlf, h2, h3, false_and, if_false]
      · simp only [hlf, and_false, if_false]
    rw [hp] at hup hle
    generalize (if 2 ≤ s.cursorOffset ∧ buffer.getByte (s.cursorOffset - 1) = 0x0A
                then s.cursorOffset - 2 else s.cursorOffset - 1) = p0 at hup hle
    have hspec := scanUp_spec buffer p0
    have hrle := scanUp_le buffer p0
    rw [hup]
    refine ⟨hle, ?_, ?_⟩
    · by_cases hr : buffer.getByte (scanUp buffer p0) = 0x0A
      · right
        simp only [hr, if_true, Nat.add_sub_cancel]
      · left
        simp only [hr, if_false]
    · intro _ p hpeq
      subst hpeq
      constructor
      · intro j hj hlf hmax
        have hjr : j ≤ scanUp buffer p := by
          by_contra hcon
          exact hspec.2 j (by omega) hj hlf
        rcases hspec.1 with hz | hr
        · have hj0 : j = 0 := by omega
          have hr : buffer.getByte (scanUp buffer p) = 0x0A := by
            rw [hz, ← hj0]
            exact hlf
          simp only [hr, if_true]
          omega
        · have hrj : scanUp buffer p ≤ j := by
            by_contra hcon
            exact hmax (scanUp buffer p) (by omega) hrle hr
          simp only [hr, if_true]
          omega
      · intro hnone
        have hr : ¬ buffer.getByte (scanUp buffer p) = 0x0A := hnone _ hrle
        simp only [hr, if_false]
  · have hz : s.cursorOffset = 0 := by omega
    rw [moveCursor_up_at_zero s buffer delta hm hd hz]
    exact ⟨le_rfl, Or.inl hz, fun h => absurd h h0⟩

/-- Instance of C17 on the text `ab\ncd\nef`: from offset 6 (start of the third
line) the greatest line feed at or below `p = 4` is at 2, and the cursor goes
to 3. -/
theorem char_up_reference_witness :
    (DisplayEngine.moveCursor ⟨6, 0, EditMode.CHAR⟩ (-16)
        ⟨[97, 98, 10, 99, 100, 10, 101, 102], "", false⟩).cursorOffset = 3 :=
  ((char_up_reference ⟨6, 0, EditMode.CHAR⟩ ⟨[97, 98, 10, 99, 100, 10, 101, 102], "", false⟩
      (-16) rfl (by decide)).2.2 (by decide) 4 (by decide)).1 2 (by decide) (by decide)
    (by intro k h1 h2; interval_cases k <;> decide)

/-- Above offset 1 the move "up" from the start of a line does leave the line:
with a line feed just before a cursor `c ≥ 2`, the new cursor is below `c`. -/
lemma char_up_leaves_line_from_two (s : DisplayEngine) (buffer : BufferManager) (delta : Int)
    (hm : s.currentMode = EditMode.CHAR) (hd : delta < -1) (h2 : 2 ≤ s.cursorOffset)
    (hlf : buffer.getByte (s.cursorOffset - 1) = 0x0A) :
    (s.moveCursor delta buffer).cursorOffset < s.cursorOffset := by
  have h3 : s.cursorOffset - 1 > 0 := by omega
  rw [moveCursor_up s buffer delta hm hd (by omega)]
  simp only [hlf, h3, and_self, if_true]
  have hle := scanUp_le buffer (s.cursorOffset - 1 - 1)
  split_ifs <;> omega

/-- At offset 1 behind a line feed at offset 0 the move "up" does not move: the
guard `search > 0` keeps the line feed from being skipped, and the cursor is put
back right after it. -/
lemma char_up_stays_at_one (s : DisplayEngine) (buffer : BufferManager) (delta : Int)
    (hm : s.currentMode = EditMode.CHAR) (hd : delta < -1) (h1 : s.cursorOffset = 1)
    (hlf : buffer.getByte 0 = 0x0A) :
    (s.moveCursor delta buffer).cursorOffset = 1 := by
  rw [moveCursor_up s buffer delta hm hd (by omega), h1]
  simp [scanUp, hlf]

/-- C16 (the code departs from the claim): in character mode, on the two bytes
`\nb` with the cursor at offset 1, whose preceding byte is a line feed,
`moveCursor` with delta -16 leaves `cursorOffset` at 1, which is not strictly
smaller than 1. -/
theorem char_up_from_second_byte_stays :
    (DisplayEngine.moveCursor ⟨1, 0, EditMode.CHAR⟩ (-16) ⟨[10, 98], "", false⟩).cursorOffset = 1 ∧
    BufferManager.getByte ⟨[10, 98], "", false⟩ (1 - 1) = 0x0A ∧
    1 < BufferManager.getSize ⟨[10, 98], "", false⟩ := by
  decide

/-! ## View: what a move reads of the byte store -/

lemma getByte_lf_iff (b1 b2 : BufferManager) (hsize : b1.getSize = b2.getSize)
    (hlf : ∀ i, i < b1.getSize → (b1.getByte i = 0x0A ↔ b2.getByte i = 0x0A)) (i : Nat) :
    b1.getByte i = 0x0A ↔ b2.getByte i = 0x0A := by
  by_cases h : i < b1.getSize
  · exact hlf i h
  · have h1 : b1.getByte i = 0 := by
      unfold BufferManager.getByte BufferManager.getSize at *
      simp [h]
    have h2 : b2.getByte i = 0 := by
      rw [hsize] at h
      unfold BufferManager.getByte BufferManager.getSize at *
      simp [h]
    rw [h1, h2]

lemma scanDown_congr (b1 b2 : BufferManager)
    (hlf : ∀ i, b1.getByte i = 0x0A ↔ b2.getByte i = 0x0A) (n fuel i : Nat) :
    scanDown b1 n fuel i = scanDown b2 n fuel i := by
  induction fuel generalizing i with
  | zero => rfl
  | succ fuel ih =>
    rw [scanDown, scanDown.eq_def b2 n (fuel + 1) i]
    simp only [hlf i, ih (i + 1)]

lemma scanUp_congr (b1 b2 : BufferManager)
    (hlf : ∀ i, b1.getByte i = 0x0A ↔ b2.getByte i = 0x0A) (p : Nat) :
    scanUp b1 p = scanUp b2 p := by
  induction p with
  | zero => rfl
  | succ k ih =>
    rw [scanUp, scanUp.eq_def b2 (k + 1)]
    simp only [ne_eq, hlf (k + 1), ih]

/-- C18, as the code allows it: for two byte stores of equal size, every view
state and every delta, `moveCursor` gives the same cursor, window and mode on
both stores whenever the mode is `HEX` or `BIN` or delta is -1, 0 or 1; and for
any mode and delta it does so whenever the two stores hold their line feeds at
the same offsets. -/
theorem moveCursor_reads_size_and_line_feeds (s : DisplayEngine) (b1 b2 : BufferManager)
    (delta : Int) (hsize : b1.getSize = b2.getSize) :
    ((s.currentMode = EditMode.HEX ∨ s.currentMode = EditMode.BIN ∨
        delta = -1 ∨ delta = 0 ∨ delta = 1) →
      s.moveCursor delta b1 = s.moveCursor delta b2) ∧
    ((∀ i, i < b1.getSize → (b1.getByte i = 0x0A ↔ b2.getByte i = 0x0A)) →
      s.moveCursor delta b1 = s.moveCursor delta b2) := by
  constructor
  · intro h
    unfold moveCursor
    simp only [hsize]
    rcases h with h | h | h | h | h
    · simp [h]
    · simp [h]
    · simp [h]
    · simp [h]
    · simp [h]
  · intro hlf
    have hall := getByte_lf_iff b1 b2 hsize hlf
    unfold moveCursor
    simp only [hsize, scanDown_congr b1 b2 hall, scanUp_congr b1 b2 hall, hall]

/-- Instance of C18, as the code allows it: the stores `abc` and `xyz` give the
same result for a move right in character mode, and the stores `a\nc` and
`x\nz` for a move down. -/
theorem moveCursor_reads_size_and_line_feeds_witness :
    DisplayEngine.moveCursor ⟨0, 0, EditMode.CHAR⟩ 1 ⟨[97, 98, 99], "", false⟩ =
      DisplayEngine.moveCursor ⟨0, 0, EditMode.CHAR⟩ 1 ⟨[120, 121, 122], "", false⟩ ∧
    DisplayEngine.moveCursor ⟨0, 0, EditMode.CHAR⟩ 16 ⟨[97, 10, 99], "", false⟩ =
      DisplayEngine.moveCursor ⟨0, 0, EditMode.CHAR⟩ 16 ⟨[120, 10, 122], "", false⟩ :=
  ⟨(moveCursor_reads_size_and_line_feeds ⟨0, 0, EditMode.CHAR⟩ ⟨[97, 98, 99], "", false⟩
      ⟨[120, 121, 122], "", false⟩ 1 rfl).1 (by decide),
   (moveCursor_reads_size_and_line_feeds ⟨0, 0, EditMode.CHAR⟩ ⟨[97, 10, 99], "", false⟩
      ⟨[120, 10, 122], "", false⟩ 16 rfl).2 (by decide)⟩

/-- C18 fails as stated: the stores `\nbc` and `abc` have the same size, yet in
character mode a move down from offset 0 puts the cursor at 1 on the first and
leaves it at 0 on the second. -/
theorem moveCursor_reads_contents :
    BufferManager.getSize ⟨[10, 98, 99], "", false⟩ =
      BufferManager.getSize ⟨[97, 98, 99], "", false⟩ ∧
    (DisplayEngine.moveCursor ⟨0, 0, EditMode.CHAR⟩ 16 ⟨[10, 98, 99], "", false⟩).cursorOffset = 1 ∧
    (DisplayEngine.moveCursor ⟨0, 0, EditMode.CHAR⟩ 16 ⟨[97, 98, 99], "", false⟩).cursorOffset = 0 ∧
    ¬ (∀ (b1 b2 : BufferManager) (s : DisplayEngine) (delta : Int),
        b1.getSize = b2.getSize → s.moveCursor delta b1 = s.moveCursor delta b2) := by
  refine ⟨by decide, by decide, by decide, fun h => ?_⟩
  have hbad := h ⟨[10, 98, 99], "", false⟩ ⟨[97, 98, 99], "", false⟩
    ⟨0, 0, EditMode.CHAR⟩ 16 (by decide)
  exact absurd hbad (by decide)

/-! ## Rendering of the grid -/

lemma highlightsOnce_append_left {cell a b : List Char} (ha : '\x1b' ∉ a)
    (hb : Spec.HighlightsOnce cell b) : Spec.HighlightsOnce cell (a ++ b) := by
  obtain ⟨pre, post, rfl, hpre, hpost⟩ := hb
  refine ⟨a ++ pre, post, by simp [List.append_assoc], ?_, hpost⟩
  simp [ha, hpre]

lemma highlightsOnce_append_right {cell a b : List Char} (ha : Spec.HighlightsOnce cell a)
    (hb : '\x1b' ∉ b) : Spec.HighlightsOnce cell (a ++ b) := by
  obtain ⟨pre, post, rfl, hpre, hpost⟩ := ha
  refine ⟨pre, post ++ b, by simp [List.append_assoc], hpre, ?_⟩
  simp [hb, hpost]

lemma flatten_escape_free (segments : List (List Char))
    (h : ∀ l ∈ segments, '\x1b' ∉ l) : '\x1b' ∉ segments.flatten := by
  intro hmem
  obtain ⟨l, hl, hin⟩ := List.mem_flatten.mp hmem
  exact h l hl hin

lemma flatten_highlightsOnce (cell : List Char) (f : Nat → List Char) (k : Nat)
    (hk : Spec.HighlightsOnce cell (f k)) :
    ∀ len a, a ≤ k → k < a + len →
      (∀ i, a ≤ i → i < a + len → i ≠ k → '\x1b' ∉ f i) →
      Spec.HighlightsOnce cell ((List.range' a len).map f).flatten := by
  intro len
  induction len with
  | zero => intro a h1 h2; omega
  | succ len ih =>
    intro a h1 h2 hother
    rw [List.range'_succ, List.map_cons, List.flatten_cons]
    by_cases hak : a = k
    · subst hak
      apply highlightsOnce_append_right hk
      apply flatten_escape_free
      intro l hl
      obtain ⟨i, hi, rfl⟩ := List.mem_map.mp hl
      have := List.mem_range'_1.mp hi
      exact hother i (by omega) (by omega) (by omega)
    · exact highlightsOnce_append_left (hother a le_rfl (by omega) hak)
        (ih (a + 1) (by omega) (by omega)
          (fun i h3 h4 h5 => hother i (by omega) (by omega) h5))

lemma ascii_hex_escape_free :
    ∀ v, v < 128 → '\x1b' ∉ padLeft 2 '0' (hexDigits v) := by
  decide

lemma ascii_bin_escape_free :
    ∀ v, v < 128 → '\x1b' ∉ bitsetToString (bitsetOfNat v) := by
  decide

lemma byteToHex_escape_free (b : Nat) : '\x1b' ∉ (byteToHex b).data := by
  unfold byteToHex
  rw [convertNonAscii_eq_sanitize]
  exact ascii_hex_escape_free _ (sanitize_lt b)

lemma byteToBin_escape_free (b : Nat) : '\x1b' ∉ (byteToBin b).data := by
  unfold byteToBin
  rw [convertNonAscii_eq_sanitize]
  exact ascii_bin_escape_free _ (sanitize_lt b)

lemma cellText_escape_free (s : DisplayEngine) (b : Nat) :
    '\x1b' ∉ (if s.currentMode = EditMode.BIN then (byteToBin b).data
      else (byteToHex b).data) := by
  split_ifs
  · exact byteToBin_escape_free b
  · exact byteToHex_escape_free b

lemma separator_escape_free (c : Nat) :
    '\x1b' ∉ (if c < hexBinBytesPerRow - 1 then " ".data else []) := by
  split_ifs
  · decide
  · simp

lemma renderCell_escape_free (s : DisplayEngine) (buffer : BufferManager) (rowStart c : Nat)
    (hne : wrapSizeT (rowStart + c) ≠ s.cursorOffset) :
    '\x1b' ∉ renderCell s buffer rowStart c := by
  unfold renderCell
  simp only [hne, if_false, List.nil_append, List.append_nil]
  by_cases hin : wrapSizeT (rowStart + c) < buffer.getSize
  · rw [if_pos hin]
    intro hmem
    rcases List.mem_append.mp hmem with h | h
    · exact cellText_escape_free s _ h
    · exact separator_escape_free c h
  · rw [if_neg hin]
    simp

lemma renderCell_highlightsOnce (s : DisplayEngine) (buffer : BufferManager) (rowStart c : Nat)
    (heq : wrapSizeT (rowStart + c) = s.cursorOffset) (hin : s.cursorOffset < buffer.getSize) :
    Spec.HighlightsOnce
      (if s.currentMode = EditMode.BIN then (byteToBin (buffer.getByte s.cursorOffset)).data
        else (byteToHex (buffer.getByte s.cursorOffset)).data)
      (renderCell s buffer rowStart c) := by
  unfold renderCell
  simp only [heq, hin, if_true]
  refine ⟨[], if c < hexBinBytesPerRow - 1 then " ".data else [], ?_, by simp,
    separator_escape_free c⟩
  simp [List.append_assoc]

lemma renderRow_escape_free (s : DisplayEngine) (buffer : BufferManager) (rowStart : Nat)
    (hne : ∀ c, c < 16 → wrapSizeT (rowStart + c) ≠ s.cursorOffset) :
    '\x1b' ∉ renderRow s buffer rowStart := by
  unfold renderRow
  intro hmem
  rcases List.mem_append.mp hmem with h | h
  · refine flatten_escape_free _ ?_ h
    intro l hl
    obtain ⟨c, hc, rfl⟩ := List.mem_map.mp hl
    exact renderCell_escape_free s buffer rowStart c (hne c (List.mem_range.mp hc))
  · exact absurd h (by decide)

lemma renderRow_highlightsOnce (s : DisplayEngine) (buffer : BufferManager) (rowStart c0 : Nat)
    (hc0 : c0 < 16) (heq : wrapSizeT (rowStart + c0) = s.cursorOffset)
    (hne : ∀ c, c < 16 → c ≠ c0 → wrapSizeT (rowStart + c) ≠ s.cursorOffset)
    (hin : s.cursorOffset < buffer.getSize) :
    Spec.HighlightsOnce
      (if s.currentMode = EditMode.BIN then (byteToBin (buffer.getByte s.cursorOffset)).data
        else (byteToHex (buffer.getByte s.cursorOffset)).data)
      (renderRow s buffer rowStart) := by
  unfold renderRow
  apply highlightsOnce_append_right _ (by decide)
  rw [List.range_eq_range']
  exact flatten_highlightsOnce _ _ c0 (renderCell_highlightsOnce s buffer rowStart c0 heq hin)
    hexBinBytesPerRow 0 (Nat.zero_le _) (by simp only [hexBinBytesPerRow]; omega)
    (fun c _ h2 h3 => renderCell_escape_free s buffer rowStart c
      (hne c (by simp only [hexBinBytesPerRow] at h2; omega) h3))

lemma renderRows_eq (s : DisplayEngine) (buffer : BufferManager)
    (hfit : s.windowStart + 320 < 18446744073709551616) :
    ∀ k r, r + k ≤ 20 →
      renderRows s buffer k r =
        (List.range' r (min k ((buffer.getSize - (s.windowStart + r * 16) + 15) / 16))).map
          (fun i => renderRow s buffer (s.windowStart + i * 16)) := by
  intro k
  induction k with
  | zero => intro r _; simp [renderRows]
  | succ k ih =>
    intro r hr
    have hwrap : wrapSizeT (s.windowStart + r * 16) = s.windowStart + r * 16 := by
      unfold wrapSizeT
      omega
    unfold renderRows
    simp only [hexBinBytesPerRow, hwrap]
    by_cases hout : s.windowStart + r * 16 ≥ buffer.getSize
    · have hzero : min (k + 1) ((buffer.getSize - (s.windowStart + r * 16) + 15) / 16) = 0 := by
        omega
      simp only [hout, if_true, hzero, List.range'_zero, List.map_nil]
    · have hsucc : min (k + 1) ((buffer.getSize - (s.windowStart + r * 16) + 15) / 16) =
          min k ((buffer.getSize - (s.windowStart + (r + 1) * 16) + 15) / 16) + 1 := by
        omega
      simp only [hout, if_false, hsucc, List.range'_succ, List.map_cons]
      rw [ih (r + 1) (by omega)]

/-- C19: for every buffer of size `n > 0` (a `std::vector`, so `n < 2 ^ 63`) and
every view state in `HEX` or `BIN` mode with `cursorOffset < n` and
`windowStart ≤ cursorOffset < windowStart + 320`, the grid has exactly
`min 20 ⌈(n - windowStart) / 16⌉` rows, and its text shows the cell of the
cursor highlighted exactly once: it consists of a part free of escape
characters, the highlight-on marker, the rendering of the byte at
`cursorOffset` (`byteToHex` in `HEX` mode, `byteToBin` in `BIN` mode, itself
free of escape characters), the highlight-off marker, and another part free of
escape characters.  The alignment of `windowStart` is not needed. -/
theorem grid_highlights_cursor_once (s : DisplayEngine) (buffer : BufferManager)
    (hmode : s.currentMode = EditMode.HEX ∨ s.currentMode = EditMode.BIN)
    (hc : s.cursorOffset < buffer.getSize)
    (hlo : s.windowStart ≤ s.cursorOffset) (hhi : s.cursorOffset < s.windowStart + 320)
    (hsize : buffer.getSize < 2 ^ 63) :
    (renderGrid s buffer).length = min 20 ((buffer.getSize - s.windowStart + 15) / 16) ∧
    (∃ pre post,
      (renderGrid s buffer).flatten =
        pre ++ (highlightOn.data ++
          (if s.currentMode = EditMode.HEX then byteToHex (buffer.getByte s.cursorOffset)
            else byteToBin (buffer.getByte s.cursorOffset)).data ++
          highlightOff.data) ++ post ∧
      '\x1b' ∉ pre ∧ '\x1b' ∉ post) ∧
    '\x1b' ∉ (if s.currentMode = EditMode.HEX then byteToHex (buffer.getByte s.cursorOffset)
      else byteToBin (buffer.getByte s.cursorOffset)).data := by
  norm_num at hsize
  have hfit : s.windowStart + 320 < 18446744073709551616 := by omega
  have hcell : (if s.currentMode = EditMode.HEX then byteToHex (buffer.getByte s.cursorOffset)
      else byteToBin (buffer.getByte s.cursorOffset)).data =
      (if s.currentMode = EditMode.BIN then (byteToBin (buffer.getByte s.cursorOffset)).data
        else (byteToHex (buffer.getByte s.cursorOffset)).data) := by
    rcases hmode with h | h <;> simp [h]
  have hrows := renderRows_eq s buffer hfit 20 0 (by omega)
  simp only [Nat.zero_mul, Nat.add_zero] at hrows
  unfold renderGrid
  simp only [visibleRows]
  rw [hrows, hcell]
  refine ⟨by simp, ?_, cellText_escape_free s _⟩
  have hmarked := renderRow_highlightsOnce s buffer
    (s.windowStart + (s.cursorOffset - s.windowStart) / 16 * 16)
    ((s.cursorOffset - s.windowStart) % 16) (by omega)
    (by unfold wrapSizeT; omega)
    (fun c h1 h2 => by unfold wrapSizeT; omega) hc
  exact flatten_highlightsOnce _
    (fun i => renderRow s buffer (s.windowStart + i * 16))
    ((s.cursorOffset - s.windowStart) / 16) hmarked _ 0 (Nat.zero_le _) (by omega)
    (fun i _ h2 h3 => renderRow_escape_free s buffer _
      (fun c hc16 => by unfold wrapSizeT; omega))

/-- Instance of C19: three bytes shown in hexadecimal with the cursor on the
second one. -/
theorem grid_highlights_cursor_once_witness :
    (renderGrid ⟨1, 0, EditMode.HEX⟩ ⟨[65, 255, 10], "", false⟩).length = 1 ∧
    (renderGrid ⟨1, 0, EditMode.HEX⟩ ⟨[65, 255, 10], "", false⟩).flatten =
      "41 \x1b[7m2E\x1b[0m 0A \n".data :=
  ⟨(grid_highlights_cursor_once ⟨1, 0, EditMode.HEX⟩ ⟨[65, 255, 10], "", false⟩
      (Or.inl rfl) (by decide) (by decide) (by decide) (by decide)).1.trans (by decide),
   by decide⟩
